import Mathlib

/-!
Verification of the multi-agent orchestration engine.

The definitions below are a shallow embedding of the Python sources:
models.py (status enums), agents.py (agent state, load scoring, execution
bookkeeping) and orchestrator.py (matching, queue draining, assignment,
execution supervision, retry, parent-completion synthesis, collaboration
and conflict resolution).  Floating point arithmetic is modelled over the
rationals; Python dict/KeyError, ValueError and ZeroDivisionError behavior
is modelled by an explicit result type that carries the (mutated) engine
state on both the normal and the exceptional path, matching the fact that
Python exceptions leave in-place mutations of the engine state visible to
any catching frame.  Calls into the external text-generation service are
modelled by an environment of oracle functions whose outcomes (well-formed
response, malformed response, failure) are supplied as parameters.
datetime.utcnow() is determinized by a logical clock on the engine state:
every operation that stamps a timestamp onto a task record reads the clock
and advances it, so re-stamping a field is observable as a changed record.
The deadline, estimated_duration and actual_duration fields and the
database mirror are not modelled: they are written at most once and never
read back by any of the control logic embedded here.
-/

namespace Orchestration

/-- Task lifecycle states, from models.TaskStatus. -/
inductive TaskStatus where
  | pending
  | assigned
  | inProgress
  | completed
  | failed
  | cancelled
deriving DecidableEq, Repr

/-- Agent availability states, from models.AgentStatus. -/
inductive AgentStatus where
  | idle
  | busy
  | offline
  | error
deriving DecidableEq, Repr

/-- Mutable per-agent state, from agents.BaseAgent.__init__ (the
performance_metrics dict is flattened into fields). -/
structure AgentState where
  capabilities : List String
  status : AgentStatus
  currentTasks : List String
  maxConcurrentTasks : Nat
  tasksCompleted : Nat
  averageCompletionTime : ℚ
  successRate : ℚ
deriving DecidableEq, Repr

/-- A freshly constructed agent: idle, no current tasks, success rate 1.0
(agents.BaseAgent.__init__). -/
def initAgent (caps : List String) (maxTasks : Nat) : AgentState :=
  { capabilities := caps
    status := AgentStatus.idle
    currentTasks := []
    maxConcurrentTasks := maxTasks
    tasksCompleted := 0
    averageCompletionTime := 0
    successRate := 1 }

/-- agents.BaseAgent.can_handle_task: every required capability is held. -/
def canHandleTask (a : AgentState) (required : List String) : Bool :=
  required.all (fun c => a.capabilities.contains c)

/-- agents.BaseAgent.get_load_score: load ratio scaled by the inverse
success rate. -/
def getLoadScore (a : AgentState) : ℚ :=
  ((a.currentTasks.length : ℚ) / (a.maxConcurrentTasks : ℚ)) * (1 / a.successRate)

/-- The eligibility filter of orchestrator._find_best_agent: capabilities,
status among idle/busy, and spare concurrent capacity. -/
def filterOK (a : AgentState) (required : List String) : Bool :=
  canHandleTask a required &&
    decide ((a.status = AgentStatus.idle ∨ a.status = AgentStatus.busy) ∧
      a.currentTasks.length < a.maxConcurrentTasks)

/-- capability_score in orchestrator._find_best_agent: the number of
distinct required capabilities the agent holds, divided by the length of
the required-capability list. -/
def capabilityScore (a : AgentState) (required : List String) : ℚ :=
  (((required.eraseDups.filter (fun c => a.capabilities.contains c)).length : ℚ)
    / (required.length : ℚ))

/-- total_score in orchestrator._find_best_agent, exactly as computed by
the code: the load term uses get_load_score, which carries the
1 / successRate factor. -/
def totalScore (a : AgentState) (required : List String) : ℚ :=
  capabilityScore a required * (2/5) + a.successRate * (2/5)
    + (1 - getLoadScore a) * (1/5)

/-- The ranking score as the specification Matcher section states it: the
load term is currentLoad / maxConcurrent, independent of successRate. -/
def claimedTotalScore (a : AgentState) (required : List String) : ℚ :=
  capabilityScore a required * (2/5) + a.successRate * (2/5)
    + (1 - (a.currentTasks.length : ℚ) / (a.maxConcurrentTasks : ℚ)) * (1/5)

/-- The candidate loop of orchestrator._find_best_agent.  Computing the
capability score for a passing candidate divides by the length of the
required-capability list, so an empty list raises ZeroDivisionError at the
first passing candidate. -/
def scoredCandidates : List (String × AgentState) → List String →
    Except String (List (String × ℚ))
  | [], _ => Except.ok []
  | (aid, a) :: rest, required =>
    if filterOK a required then
      if required.length = 0 then Except.error "ZeroDivisionError"
      else
        match scoredCandidates rest required with
        | Except.ok tl => Except.ok ((aid, totalScore a required) :: tl)
        | Except.error e => Except.error e
    else scoredCandidates rest required

/-- Selection from a scored candidate list: Python sorts stably by score
descending and takes the head, i.e. the first candidate achieving the
maximum score.  Only a strictly greater score displaces the current best. -/
def pickBestGo (bestId : String) (bestScore : ℚ) : List (String × ℚ) → String
  | [] => bestId
  | (aid, s) :: rest =>
    if bestScore < s then pickBestGo aid s rest else pickBestGo bestId bestScore rest

/-- orchestrator._find_best_agent final selection step. -/
def pickBest : List (String × ℚ) → Option String
  | [] => none
  | (aid, s) :: rest => some (pickBestGo aid s rest)

/-- orchestrator._find_best_agent: filter, score, pick the best; None when
no candidate qualifies. -/
def findBestAgent (agents : List (String × AgentState)) (required : List String) :
    Except String (Option String) :=
  match scoredCandidates agents required with
  | Except.ok cs => Except.ok (pickBest cs)
  | Except.error e => Except.error e

/-- An in-memory task record, from the dict built in
orchestrator.submit_task (retry_count models task.get with default 0).
The created_at / assigned_at / started_at / completed_at timestamps are
modelled as readings of the logical engine clock; only created_at is
present in the dict at submission, the others are added by later writes,
hence the Option type. -/
structure TaskRec where
  title : String
  description : String
  taskType : String
  requiredCapabilities : List String
  priority : Int
  status : TaskStatus
  parentTaskId : Option String
  subtasks : List String
  assignedAgentId : Option String
  result : Option String
  errorMessage : Option String
  retryCount : Nat
  progressPercentage : ℚ
  createdAt : Option Nat
  assignedAt : Option Nat
  startedAt : Option Nat
  completedAt : Option Nat
deriving DecidableEq, Repr

/-- The task_data dict handed to submit_task: every field may be absent;
title, description and required_capabilities are accessed with [] and so
raise KeyError when missing, the others use .get defaults. -/
structure TaskData where
  title : Option String
  description : Option String
  taskType : Option String
  requiredCapabilities : Option (List String)
  priority : Option Int
  parentTaskId : Option String
deriving DecidableEq, Repr

/-- A subtask descriptor parsed out of the decomposition response. -/
structure SubtaskData where
  title : Option String
  description : Option String
  requiredCapabilities : Option (List String)
  priority : Option Int
deriving DecidableEq, Repr

/-- The mutable state of the orchestration engine
(orchestrator.OrchestrationEngine.__init__).  The transitions field is a
ghost log recording every write to a task status field as
(taskId, oldStatus, newStatus); synthCalls is a ghost counter of
invocations of the result synthesizer.  nextId determinizes uuid4; clock
is the logical clock determinizing datetime.utcnow(), advanced by every
operation that stamps a timestamp. -/
structure EngineState where
  tasks : List (String × TaskRec)
  agents : List (String × AgentState)
  taskQueue : List String
  agentRegistry : List (String × List String)
  totalTasks : Nat
  completedTasks : Nat
  failedTasks : Nat
  activeCollaborations : Nat
  messagesCount : Nat
  nextId : Nat
  clock : Nat
  transitions : List (String × TaskStatus × TaskStatus)
  synthCalls : Nat
deriving DecidableEq, Repr

/-- Result of an engine operation.  Python mutates the engine in place, so
an escaping exception still leaves all mutations performed so far visible;
both constructors therefore carry the resulting state. -/
inductive Res (α : Type) where
  | ok (val : α) (st : EngineState)
  | exn (err : String) (st : EngineState)
deriving DecidableEq, Repr

/-- The engine state after an operation, whether it returned or raised. -/
def Res.state {α : Type} : Res α → EngineState
  | Res.ok _ st => st
  | Res.exn _ st => st

/-- Lookup in an association list keyed by strings (dict read). -/
def getAssoc {α : Type} (l : List (String × α)) (k : String) : Option α :=
  (l.find? (fun p => p.1 = k)).map (fun p => p.2)

/-- Replace the value stored under an existing key (dict write of an
existing entry). -/
def updAssoc {α : Type} (l : List (String × α)) (k : String) (v : α) :
    List (String × α) :=
  l.map (fun p => if p.1 = k then (k, v) else p)

def lookupTask (st : EngineState) (tid : String) : Option TaskRec :=
  getAssoc st.tasks tid

def lookupAgent (st : EngineState) (aid : String) : Option AgentState :=
  getAssoc st.agents aid

def updTask (st : EngineState) (tid : String) (t : TaskRec) : EngineState :=
  { st with tasks := updAssoc st.tasks tid t }

def updAgent (st : EngineState) (aid : String) (a : AgentState) : EngineState :=
  { st with agents := updAssoc st.agents aid a }

/-- Overwrite a task record whose status field is (re)written, logging the
status transition in the ghost log.  old is the record as it was just
looked up at the write site. -/
def writeTask (st : EngineState) (tid : String) (old new : TaskRec) : EngineState :=
  { updTask st tid new with
      transitions := st.transitions ++ [(tid, old.status, new.status)] }

/-- PLATFORM_CONFIG max_retries. -/
def maxRetries : Nat := 3

/-- Outcome of the complexity-assessment inference call in
orchestrator._needs_decomposition: inferFail covers a raised inference
call, an unparseable response and a response that is not a JSON object
(all of which land in the bare except); parsed carries a JSON object, with
the value of its needs_decomposition key when that key is present. -/
inductive ComplexityResp where
  | inferFail
  | parsed (needs : Option Bool)
deriving DecidableEq, Repr

/-- The resolution payload of resolve_conflict: the first conflicting
result, or the empty object when the candidate list is empty. -/
inductive ResolutionVal where
  | payload (p : String)
  | emptyObj
deriving DecidableEq, Repr

/-- The structured result of resolve_conflict. -/
structure ResolveResult where
  conflictsIdentified : List String
  resolution : ResolutionVal
  confidenceScore : ℚ
  reasoning : String
deriving DecidableEq, Repr

/-- Agent-side outcome of processing one task
(agents.BaseAgent.execute_task): the structured success / error result
with the measured duration. -/
inductive AgentOutcome where
  | success (payload : String) (duration : ℚ)
  | failure (errMsg : String) (duration : ℚ)
deriving DecidableEq, Repr

/-- Oracles for the external text-generation service.  Each field models
one call site; a none / inferFail outcome stands for a raised call or a
malformed response, exactly the cases the corresponding Python except
block catches. -/
structure Env where
  assessComplexity : TaskRec → ComplexityResp
  decomposeResp : TaskRec → Option (List SubtaskData)
  synthesize : String → String → List (Option String) → Option String
  resolveInfer : TaskRec → List String → Option ResolveResult

/-- orchestrator._needs_decomposition: ask the inference collaborator; on
any exception fall back to the capability-count heuristic; a parsed object
without the key yields the .get default False. -/
def needsDecomposition (env : Env) (t : TaskRec) : Bool :=
  match env.assessComplexity t with
  | ComplexityResp.inferFail => decide (t.requiredCapabilities.length > 2)
  | ComplexityResp.parsed needs => needs.getD false

/-- The fallback synthesis payload built in orchestrator._synthesize_results
when the inference call fails: a structured encoding of the raw child
results. -/
def fallbackSynth (results : List (Option String)) : String :=
  "synthesized_results: "
    ++ String.intercalate ", " (results.map (fun r => r.getD "null"))

/-- The metrics update inside agents.BaseAgent.execute_task: on success
bump the completion counter and recompute the incremental mean, on failure
multiply the success rate by 0.95. -/
def agentMetricsUpd (outcome : AgentOutcome) (a : AgentState) : AgentState :=
  match outcome with
  | AgentOutcome.success _ d =>
    let n := a.tasksCompleted + 1
    { a with
        tasksCompleted := n,
        averageCompletionTime := (a.averageCompletionTime * ((n : ℚ) - 1) + d) / (n : ℚ) }
  | AgentOutcome.failure _ _ => { a with successRate := a.successRate * (19/20) }

/-- The full agent-side completion of one task: metrics update followed by
the finally block (remove the task id, drop back to idle when the load
becomes empty). -/
def agentFinish (tid : String) (outcome : AgentOutcome) (a : AgentState) : AgentState :=
  let a1 := agentMetricsUpd outcome a
  let ct := a1.currentTasks.erase tid
  { a1 with
      currentTasks := ct,
      status := if ct.isEmpty then AgentStatus.idle else a1.status }

/-- orchestrator._assign_task: record the agent and the assignment
timestamp on the task and set status Assigned; the spawned execution is a
separate, deferred operation. -/
def assignTask (tid aid : String) (st : EngineState) : Res Unit :=
  match lookupTask st tid, lookupAgent st aid with
  | some t, some _ =>
    Res.ok () { writeTask st tid t
      { t with
          assignedAgentId := some aid,
          assignedAt := some st.clock,
          status := TaskStatus.assigned } with
        clock := st.clock + 1 }
  | _, _ => Res.exn "KeyError" st

/-- The body of the queue-draining while loop in
orchestrator._process_task_queue, with fuel bounding the number of
iterations (the loop pops one id per iteration and only appends when it
immediately breaks, so the initial queue length is enough fuel). -/
def processQueueGo : Nat → EngineState → Res Unit
  | 0, st => Res.ok () st
  | fuel + 1, st =>
    match st.taskQueue with
    | [] => Res.ok () st
    | tid :: rest =>
      let st1 := { st with taskQueue := rest }
      match lookupTask st1 tid with
      | none => Res.exn "KeyError" st1
      | some t =>
        if t.status = TaskStatus.pending then
          match findBestAgent st1.agents t.requiredCapabilities with
          | Except.error e => Res.exn e st1
          | Except.ok none =>
            Res.ok () { st1 with taskQueue := st1.taskQueue ++ [tid] }
          | Except.ok (some aid) =>
            match assignTask tid aid st1 with
            | Res.ok _ st2 => processQueueGo fuel st2
            | Res.exn e st2 => Res.exn e st2
        else processQueueGo fuel st1

/-- orchestrator._process_task_queue. -/
def processTaskQueue (st : EngineState) : Res Unit :=
  processQueueGo st.taskQueue.length st

/-- orchestrator._handle_task_failure: grant a retry exactly when the
retry counter is below max_retries, re-enqueueing the task as Pending and
draining the queue; otherwise leave the task as it is. -/
def handleTaskFailure (tid : String) (st : EngineState) : Res Unit :=
  match lookupTask st tid with
  | none => Res.exn "KeyError" st
  | some t =>
    if t.retryCount < maxRetries then
      let st1 := writeTask st tid t
        { t with
            retryCount := t.retryCount + 1,
            status := TaskStatus.pending,
            assignedAgentId := none }
      processTaskQueue { st1 with taskQueue := st1.taskQueue ++ [tid] }
    else Res.ok () st

/-- The child scan of orchestrator._check_parent_task_completion: walk the
children in order, stopping at the first one that is not Completed
(returning none), otherwise collecting their results. -/
def scanChildren (st : EngineState) :
    List String → Except String (Option (List (Option String)))
  | [] => Except.ok (some [])
  | c :: rest =>
    match lookupTask st c with
    | none => Except.error "KeyError"
    | some ct =>
      if ct.status = TaskStatus.completed then
        match scanChildren st rest with
        | Except.ok (some rs) => Except.ok (some (ct.result :: rs))
        | other => other
      else Except.ok none

/-- orchestrator._check_parent_task_completion: when every child is
Completed, synthesize (counting the invocation in the ghost counter; the
synthesis prompt only uses the parent title, description and the child
results) and mark the parent Completed, stamping a fresh completed_at
timestamp (the current clock reading). -/
def checkParentCompletion (env : Env) (pid : String) (st : EngineState) : Res Unit :=
  match lookupTask st pid with
  | none => Res.exn "KeyError" st
  | some p =>
    match scanChildren st p.subtasks with
    | Except.error e => Res.exn e st
    | Except.ok none => Res.ok () st
    | Except.ok (some results) =>
      let content :=
        match env.synthesize p.title p.description results with
        | some c => c
        | none => fallbackSynth results
      let st1 := { st with synthCalls := st.synthCalls + 1, clock := st.clock + 1 }
      Res.ok () (writeTask st1 pid p
        { p with
            status := TaskStatus.completed,
            result := some content,
            completedAt := some st.clock,
            progressPercentage := 100 })

/-- The start of a spawned execution: orchestrator._execute_task sets the
task InProgress, then agents.BaseAgent.execute_task appends the task id to
the current load and goes Busy, all before the first suspension point. -/
def execStart (tid aid : String) (st : EngineState) : Res Unit :=
  match lookupTask st tid, lookupAgent st aid with
  | some t, some a =>
    let st1 := { writeTask st tid t
      { t with status := TaskStatus.inProgress, startedAt := some st.clock } with
        clock := st.clock + 1 }
    Res.ok () (updAgent st1 aid
      { a with currentTasks := a.currentTasks ++ [tid], status := AgentStatus.busy })
  | _, _ => Res.exn "KeyError" st

/-- The completion of a spawned execution: the agent finishes (metrics
update, then the finally block), and the engine processes the structured
result.  fault = some msg models an unexpected exception reaching the
except branch of orchestrator._execute_task, which records the failure but
does not invoke the retry handler.  A task id missing from the agent load
makes the finally-block remove raise ValueError, which that same except
branch swallows into a recorded failure.  Every terminal write (success,
structured failure, fault) stamps completed_at with the current clock. -/
def execFinish (env : Env) (tid aid : String) (outcome : AgentOutcome)
    (fault : Option String) (st : EngineState) : Res Unit :=
  match lookupTask st tid, lookupAgent st aid with
  | some t, some a =>
    if tid ∈ a.currentTasks then
      let st1 := updAgent st aid (agentFinish tid outcome a)
      match fault with
      | some msg =>
        Res.ok () { writeTask st1 tid t
          { t with
              status := TaskStatus.failed,
              errorMessage := some msg,
              completedAt := some st.clock } with
            failedTasks := st1.failedTasks + 1, clock := st.clock + 1 }
      | none =>
        match outcome with
        | AgentOutcome.success payload _ =>
          let st2 := { writeTask st1 tid t
            { t with
                status := TaskStatus.completed,
                result := some payload,
                completedAt := some st.clock,
                progressPercentage := 100 } with
              completedTasks := st1.completedTasks + 1, clock := st.clock + 1 }
          match t.parentTaskId with
          | some pid => checkParentCompletion env pid st2
          | none => Res.ok () st2
        | AgentOutcome.failure err _ =>
          let st2 := { writeTask st1 tid t
            { t with
                status := TaskStatus.failed,
                errorMessage := some err,
                completedAt := some st.clock } with
              failedTasks := st1.failedTasks + 1, clock := st.clock + 1 }
          handleTaskFailure tid st2
    else
      let st1 := updAgent st aid (agentMetricsUpd outcome a)
      Res.ok () { writeTask st1 tid t
        { t with
            status := TaskStatus.failed,
            errorMessage := some "ValueError",
            completedAt := some st.clock } with
          failedTasks := st1.failedTasks + 1, clock := st.clock + 1 }
  | _, _ => Res.exn "KeyError" st

/-- The task record built in orchestrator.submit_task once the mandatory
fields are present; clk is the clock reading stamped as created_at. -/
def mkTaskRec (data : TaskData) (title desc : String) (caps : List String)
    (clk : Nat) : TaskRec :=
  { title := title
    description := desc
    taskType := data.taskType.getD "general"
    requiredCapabilities := caps
    priority := data.priority.getD 1
    status := TaskStatus.pending
    parentTaskId := data.parentTaskId
    subtasks := []
    assignedAgentId := none
    result := none
    errorMessage := none
    retryCount := 0
    progressPercentage := 0
    createdAt := some clk
    assignedAt := none
    startedAt := none
    completedAt := none }

/-- The id generated for the k-th submitted task.  A deterministic
stand-in for uuid4: the unary suffix makes distinct counter values give
ids of distinct lengths, so the uuid uniqueness guarantee is provable. -/
def freshIdNum (k : Nat) : String := "task" ++ String.mk (List.replicate k 'x')

/-- Deterministic stand-in for uuid4 at the current counter value. -/
def freshTaskId (st : EngineState) : String := freshIdNum st.nextId

/-- The submit payload built for one subtask in orchestrator._decompose_task:
the descriptor fields plus the parent id and the parent task type. -/
def subtaskToData (parentId parentType : String) (sd : SubtaskData) : TaskData :=
  { title := sd.title
    description := sd.description
    taskType := some parentType
    requiredCapabilities := sd.requiredCapabilities
    priority := sd.priority
    parentTaskId := some parentId }

/-- The subtask loop of orchestrator._decompose_task: submit each
descriptor and append the returned child id to the parent subtasks list; a
raised submission aborts the loop with the partial state (the enclosing
try catches it). -/
def submitSubtasks (submit : TaskData → EngineState → Res String)
    (parentId parentType : String) :
    List SubtaskData → EngineState → Res Unit
  | [], st => Res.ok () st
  | sd :: rest, st =>
    match submit (subtaskToData parentId parentType sd) st with
    | Res.exn e st1 => Res.exn e st1
    | Res.ok sid st1 =>
      match lookupTask st1 parentId with
      | none => Res.exn "KeyError" st1
      | some p =>
        submitSubtasks submit parentId parentType rest
          (updTask st1 parentId { p with subtasks := p.subtasks ++ [sid] })

/-- orchestrator._decompose_task, parameterized by the function used to
submit child tasks.  A failed or malformed decomposition response, or any
exception out of the subtask loop, falls back to enqueueing the original
task and draining the queue; otherwise the parent is set InProgress. -/
def decomposeAux (submit : TaskData → EngineState → Res String) (env : Env)
    (tid : String) (st : EngineState) : Res Unit :=
  match lookupTask st tid with
  | none => Res.exn "KeyError" st
  | some t =>
    match env.decomposeResp t with
    | none => processTaskQueue { st with taskQueue := st.taskQueue ++ [tid] }
    | some sds =>
      match submitSubtasks submit tid t.taskType sds st with
      | Res.exn _ st1 =>
        processTaskQueue { st1 with taskQueue := st1.taskQueue ++ [tid] }
      | Res.ok _ st1 =>
        match lookupTask st1 tid with
        | none => Res.exn "KeyError" st1
        | some t1 =>
          Res.ok () (writeTask st1 tid t1 { t1 with status := TaskStatus.inProgress })

/-- The body of orchestrator.submit_task: reading a missing mandatory
field raises KeyError before any engine mutation; otherwise the task is
registered and either decomposed or enqueued and the queue drained. -/
def submitCore (env : Env) (childSubmit : TaskData → EngineState → Res String)
    (data : TaskData) (st : EngineState) : Res String :=
  match data.title, data.description, data.requiredCapabilities with
  | some title, some desc, some caps =>
    let tid := freshTaskId st
    let t := mkTaskRec data title desc caps st.clock
    let st1 := { st with
      nextId := st.nextId + 1,
      clock := st.clock + 1,
      tasks := st.tasks ++ [(tid, t)],
      totalTasks := st.totalTasks + 1 }
    if needsDecomposition env t then
      match decomposeAux childSubmit env tid st1 with
      | Res.ok _ st2 => Res.ok tid st2
      | Res.exn e st2 => Res.exn e st2
    else
      match processTaskQueue { st1 with taskQueue := st1.taskQueue ++ [tid] } with
      | Res.ok _ st2 => Res.ok tid st2
      | Res.exn e st2 => Res.exn e st2
  | _, _, _ => Res.exn "KeyError" st

/-- orchestrator.submit_task, with fuel bounding the decomposition
recursion depth (the atomic path never consumes fuel). -/
def submitTask (env : Env) : Nat → TaskData → EngineState → Res String
  | 0 => submitCore env (fun _ s => Res.exn "RecursionError" s)
  | fuel + 1 => submitCore env (submitTask env fuel)

/-- orchestrator._decompose_task as a standalone operation. -/
def decomposeTask (env : Env) (fuel : Nat) (tid : String) (st : EngineState) : Res Unit :=
  decomposeAux (submitTask env fuel) env tid st

/-- orchestrator.resolve_conflict: an unknown task id raises KeyError
before the guarded region; afterwards an inference failure or malformed
response deterministically falls back to the first candidate (or the
empty object), confidence 0.5 and a sentinel conflict entry. -/
def resolveConflict (env : Env) (tid : String) (candidates : List String)
    (st : EngineState) : Res ResolveResult :=
  match lookupTask st tid with
  | none => Res.exn "KeyError" st
  | some t =>
    match env.resolveInfer t candidates with
    | some r => Res.ok r st
    | none =>
      Res.ok
        { conflictsIdentified := ["Resolution failed"]
          resolution :=
            match candidates with
            | c :: _ => ResolutionVal.payload c
            | [] => ResolutionVal.emptyObj
          confidenceScore := 1/2
          reasoning := "Automatic fallback due to resolution error" } st

/-- The summary returned by orchestrator.get_system_status. -/
structure SystemStatus where
  totalTasks : Nat
  completedTasks : Nat
  failedTasks : Nat
  activeTasks : Nat
  pendingTasks : Nat
  totalAgents : Nat
  activeCollaborations : Nat
deriving DecidableEq, Repr

/-- orchestrator.get_system_status: a pure read of the engine state. -/
def getSystemStatus (st : EngineState) : SystemStatus :=
  { totalTasks := st.totalTasks
    completedTasks := st.completedTasks
    failedTasks := st.failedTasks
    activeTasks := (st.tasks.filter (fun p =>
      decide (p.2.status = TaskStatus.assigned ∨ p.2.status = TaskStatus.inProgress))).length
    pendingTasks := st.taskQueue.length
    totalAgents := st.agents.length
    activeCollaborations := st.activeCollaborations }

/-- The capability index read: a defaultdict, so a missing capability
yields the empty list. -/
def registryGet (st : EngineState) (cap : String) : List String :=
  (getAssoc st.agentRegistry cap).getD []

/-- The inner candidate loop of orchestrator.request_collaboration over
one capability bucket; looking up an agent id missing from the agent table
raises KeyError (short-circuit order as in the source). -/
def addCandidates (st : EngineState) (requester : String) :
    List String → List String → Except String (List String)
  | acc, [] => Except.ok acc
  | acc, aid :: rest =>
    if aid ≠ requester ∧ ¬ aid ∈ acc then
      match lookupAgent st aid with
      | none => Except.error "KeyError"
      | some a =>
        addCandidates st requester
          (if a.status ≠ AgentStatus.offline then acc ++ [aid] else acc) rest
    else addCandidates st requester acc rest

/-- The outer loop of orchestrator.request_collaboration over the
requested capabilities. -/
def collabScan (st : EngineState) (requester : String) :
    List String → List String → Except String (List String)
  | acc, [] => Except.ok acc
  | acc, cap :: caps =>
    match addCandidates st requester acc (registryGet st cap) with
    | Except.ok acc1 => collabScan st requester acc1 caps
    | Except.error e => Except.error e

/-- orchestrator.request_collaboration: an empty participant set returns
the sentinel string without creating a session; otherwise a session is
created and one collaboration message is sent per participant. -/
def requestCollaboration (requesterId : String) (caps : List String)
    (st : EngineState) : Res String :=
  let cid := "collab" ++ toString st.nextId
  let st1 := { st with nextId := st.nextId + 1 }
  match collabScan st1 requesterId [] caps with
  | Except.error e => Res.exn e st1
  | Except.ok [] => Res.ok "No suitable agents available for collaboration" st1
  | Except.ok participants =>
    Res.ok cid { st1 with
      activeCollaborations := st1.activeCollaborations + 1
      messagesCount := st1.messagesCount + participants.length }

/-- The engine operations, for statements quantifying over everything the
engine can do to its state. -/
inductive EngineOp where
  | submitOp (fuel : Nat) (data : TaskData)
  | decomposeOp (fuel : Nat) (taskId : String)
  | processQueueOp
  | execStartOp (taskId agentId : String)
  | execFinishOp (taskId agentId : String) (outcome : AgentOutcome) (fault : Option String)
  | handleFailureOp (taskId : String)
  | checkParentOp (parentId : String)
  | resolveConflictOp (taskId : String) (candidates : List String)
  | requestCollabOp (requesterId : String) (caps : List String)

/-- The state reached by one engine operation (whether it returned or
raised). -/
def runOp (env : Env) : EngineOp → EngineState → EngineState
  | EngineOp.submitOp fuel data, st => (submitTask env fuel data st).state
  | EngineOp.decomposeOp fuel tid, st => (decomposeTask env fuel tid st).state
  | EngineOp.processQueueOp, st => (processTaskQueue st).state
  | EngineOp.execStartOp tid aid, st => (execStart tid aid st).state
  | EngineOp.execFinishOp tid aid outcome fault, st =>
    (execFinish env tid aid outcome fault st).state
  | EngineOp.handleFailureOp tid, st => (handleTaskFailure tid st).state
  | EngineOp.checkParentOp pid, st => (checkParentCompletion env pid st).state
  | EngineOp.resolveConflictOp tid cands, st => (resolveConflict env tid cands st).state
  | EngineOp.requestCollabOp r caps, st => (requestCollaboration r caps st).state

/-! ### Association list lemmas -/

theorem getAssoc_updAssoc_same {α : Type} (l : List (String × α)) (k : String)
    (v₀ v : α) (h : getAssoc l k = some v₀) :
    getAssoc (updAssoc l k v) k = some v := by
  induction l with
  | nil => simp [getAssoc] at h
  | cons hd tl ih =>
    by_cases hk : hd.1 = k
    · simp [getAssoc, updAssoc, List.find?, hk]
    · simp only [getAssoc, updAssoc, List.map, List.find?] at h ⊢
      simp only [if_neg hk, decide_eq_false hk] at h ⊢
      exact ih h

theorem getAssoc_updAssoc_ne {α : Type} (l : List (String × α)) (k k' : String)
    (v : α) (h : k' ≠ k) :
    getAssoc (updAssoc l k v) k' = getAssoc l k' := by
  induction l with
  | nil => rfl
  | cons hd tl ih =>
    simp only [getAssoc, updAssoc, List.map, List.find?] at ih ⊢
    by_cases hk : hd.1 = k
    · have hk' : ¬ hd.1 = k' := fun hc => h (hc.symm.trans hk)
      have hkk' : ¬ k = k' := fun hc => h hc.symm
      simp only [if_pos hk, decide_eq_false hkk', decide_eq_false hk']
      exact ih
    · by_cases hk' : hd.1 = k'
      · simp only [if_neg hk, decide_eq_true hk']
      · simp only [if_neg hk, decide_eq_false hk']
        exact ih

theorem updAssoc_updAssoc_same {α : Type} (l : List (String × α)) (k : String)
    (v v' : α) : updAssoc (updAssoc l k v) k v' = updAssoc l k v' := by
  induction l with
  | nil => rfl
  | cons hd tl ih =>
    simp only [updAssoc, List.map] at ih ⊢
    by_cases hk : hd.1 = k
    · simp only [if_pos hk, ih]
      simp
    · simp only [if_neg hk, ih]

/-! ### Claim C1: the Matcher ranking score -/

/-- A concrete candidate agent with a degraded success rate: eligible for
a one-capability task, with one running task out of two slots. -/
def c1Agent : AgentState :=
  { capabilities := ["c"]
    status := AgentStatus.busy
    currentTasks := ["x"]
    maxConcurrentTasks := 2
    tasksCompleted := 0
    averageCompletionTime := 0
    successRate := 1/2 }

/-- Claim C1, counterexample.  The score the matcher actually ranks this
candidate by is 3/5 (its load term is get_load_score, which multiplies the
load ratio by 1/successRate), while the formula the claim states,
0.4*capabilityScore + 0.4*successRate + 0.2*(1 - currentLoad/maxConcurrent),
yields 7/10: the two disagree as soon as successRate is below 1. -/
theorem claim1_counterexample :
    scoredCandidates [("A", c1Agent)] ["c"] =
      Except.ok [("A", totalScore c1Agent ["c"])]
    ∧ totalScore c1Agent ["c"] = 3/5
    ∧ claimedTotalScore c1Agent ["c"] = 7/10
    ∧ totalScore c1Agent ["c"] ≠ claimedTotalScore c1Agent ["c"] := by
  have hcap : capabilityScore c1Agent ["c"] = 1 := by
    have h : ((["c"] : List String).eraseDups.filter
        (fun c => c1Agent.capabilities.contains c)).length = 1 := by decide
    rw [capabilityScore, h]; norm_num
  have hts : totalScore c1Agent ["c"] = 3/5 := by
    rw [totalScore, hcap, getLoadScore]; norm_num [c1Agent]
  have hcs : claimedTotalScore c1Agent ["c"] = 7/10 := by
    rw [claimedTotalScore, hcap]; norm_num [c1Agent]
  exact ⟨rfl, hts, hcs, by rw [hts, hcs]; norm_num⟩

theorem pickBestGo_spec (l : List (String × ℚ)) : ∀ b s, ∃ s' : ℚ,
    ((pickBestGo b s l = b ∧ s' = s) ∨ (pickBestGo b s l, s') ∈ l)
    ∧ s ≤ s' ∧ ∀ x ∈ l, x.2 ≤ s' := by
  induction l with
  | nil => exact fun b s => ⟨s, Or.inl ⟨rfl, rfl⟩, le_refl s, by simp⟩
  | cons hd tl ih =>
    intro b s
    obtain ⟨aid, sc⟩ := hd
    by_cases hlt : s < sc
    · obtain ⟨s', hmem, hle, hall⟩ := ih aid sc
      refine ⟨s', ?_, ?_, ?_⟩
      · rcases hmem with ⟨hb, hs⟩ | hin
        · refine Or.inr ?_
          simp only [pickBestGo, if_pos hlt, hb, hs]
          exact List.mem_cons_self _ _
        · refine Or.inr ?_
          simp only [pickBestGo, if_pos hlt]
          exact List.mem_cons_of_mem _ hin
      · exact le_of_lt (lt_of_lt_of_le hlt hle)
      · intro x hx
        rcases List.mem_cons.mp hx with hx | hx
        · rw [hx]; exact hle
        · exact hall x hx
    · obtain ⟨s', hmem, hle, hall⟩ := ih b s
      refine ⟨s', ?_, hle, ?_⟩
      · rcases hmem with ⟨hb, hs⟩ | hin
        · exact Or.inl ⟨by simp only [pickBestGo, if_neg hlt]; exact hb, hs⟩
        · refine Or.inr ?_
          simp only [pickBestGo, if_neg hlt]
          exact List.mem_cons_of_mem _ hin
      · intro x hx
        rcases List.mem_cons.mp hx with hx | hx
        · rw [hx]; exact le_trans (le_of_not_lt hlt) hle
        · exact hall x hx

theorem pickBest_max (cs : List (String × ℚ)) (bestId : String)
    (h : pickBest cs = some bestId) :
    ∃ s, (bestId, s) ∈ cs ∧ ∀ x ∈ cs, x.2 ≤ s := by
  cases cs with
  | nil => exact absurd h (by simp [pickBest])
  | cons c tl =>
    obtain ⟨aid, sc⟩ := c
    have hb : pickBestGo aid sc tl = bestId := by
      simpa [pickBest] using h
    obtain ⟨s', hmem, hle, hall⟩ := pickBestGo_spec tl aid sc
    refine ⟨s', ?_, ?_⟩
    · rcases hmem with ⟨hid, hs⟩ | hin
      · rw [← hb, hid, hs]; exact List.mem_cons_self _ _
      · rw [← hb]; exact List.mem_cons_of_mem _ hin
    · intro x hx
      rcases List.mem_cons.mp hx with hx | hx
      · rw [hx]; exact hle
      · exact hall x hx

theorem scoredCandidates_eq (agents : List (String × AgentState))
    (required : List String) (h : required ≠ []) :
    scoredCandidates agents required =
      Except.ok ((agents.filter (fun p => filterOK p.2 required)).map
        (fun p => (p.1, totalScore p.2 required))) := by
  induction agents with
  | nil => rfl
  | cons hd tl ih =>
    obtain ⟨aid, a⟩ := hd
    have hlen : ¬ required.length = 0 := by
      cases required with
      | nil => exact absurd rfl h
      | cons => simp
    by_cases hf : filterOK a required
    · rw [show (((aid, a) :: tl).filter (fun p => filterOK p.2 required)) =
        (aid, a) :: (tl.filter (fun p => filterOK p.2 required)) from
        List.filter_cons_of_pos hf]
      simp only [scoredCandidates, if_pos hf, if_neg hlen, ih, List.map]
    · rw [show (((aid, a) :: tl).filter (fun p => filterOK p.2 required)) =
        tl.filter (fun p => filterOK p.2 required) from
        List.filter_cons_of_neg (by simpa using hf)]
      simp only [scoredCandidates, if_neg hf, ih]

/-- Claim C1, amended.  For a nonempty required-capability list the
matcher scores exactly the agents passing the eligibility filter; the
score of each candidate is totalScore, i.e.
0.4*capabilityScore + 0.4*successRate + 0.2*(1 - loadScore) where
loadScore is get_load_score = (currentLoad/maxConcurrent)*(1/successRate)
(not the plain load ratio the original claim states); and the selected
agent is one achieving the maximum of these scores (the first such, by
stable sorting). -/
theorem claim1_amended (agents : List (String × AgentState))
    (required : List String) (h : required ≠ []) :
    (∀ a : AgentState, getLoadScore a =
      ((a.currentTasks.length : ℚ) / (a.maxConcurrentTasks : ℚ)) * (1 / a.successRate))
    ∧ scoredCandidates agents required =
      Except.ok ((agents.filter (fun p => filterOK p.2 required)).map
        (fun p => (p.1, totalScore p.2 required)))
    ∧ findBestAgent agents required =
      Except.ok (pickBest ((agents.filter (fun p => filterOK p.2 required)).map
        (fun p => (p.1, totalScore p.2 required))))
    ∧ ∀ bestId, findBestAgent agents required = Except.ok (some bestId) →
        ∃ s, (bestId, s) ∈ (agents.filter (fun p => filterOK p.2 required)).map
            (fun p => (p.1, totalScore p.2 required))
          ∧ ∀ x ∈ (agents.filter (fun p => filterOK p.2 required)).map
              (fun p => (p.1, totalScore p.2 required)), x.2 ≤ s := by
  have h1 := scoredCandidates_eq agents required h
  refine ⟨fun a => rfl, h1, ?_, ?_⟩
  · rw [findBestAgent, h1]
  · intro bestId hb
    rw [findBestAgent, h1] at hb
    exact pickBest_max _ _ (by simpa using hb)

/-- Claim C1, witness for the amended theorem: a concrete one-candidate
pool in which the matcher selects that candidate. -/
theorem claim1_amended_witness :
    findBestAgent [("A", c1Agent)] ["c"] = Except.ok (some "A") := by
  have h := (claim1_amended [("A", c1Agent)] ["c"] (by decide)).2.2.1
  rw [h]
  rfl

/-! ### Shared concrete fixtures -/

/-- An environment in which every inference call fails (or returns an
unparseable response). -/
def envFail : Env :=
  { assessComplexity := fun _ => ComplexityResp.inferFail
    decomposeResp := fun _ => none
    synthesize := fun _ _ _ => none
    resolveInfer := fun _ _ => none }

/-- A plain atomic task record used by concrete runs. -/
def t0 : TaskRec :=
  { title := "t"
    description := "d"
    taskType := "general"
    requiredCapabilities := ["c"]
    priority := 1
    status := TaskStatus.pending
    parentTaskId := none
    subtasks := []
    assignedAgentId := none
    result := none
    errorMessage := none
    retryCount := 0
    progressPercentage := 0
    createdAt := none
    assignedAt := none
    startedAt := none
    completedAt := none }

/-- The empty engine state. -/
def emptyState : EngineState :=
  { tasks := []
    agents := []
    taskQueue := []
    agentRegistry := []
    totalTasks := 0
    completedTasks := 0
    failedTasks := 0
    activeCollaborations := 0
    messagesCount := 0
    nextId := 0
    clock := 0
    transitions := []
    synthCalls := 0 }

/-! ### Claim C10: empty required-capability lists crash the matcher -/

theorem scoredCandidates_empty_caps (agents : List (String × AgentState))
    (hpass : ∃ p ∈ agents, filterOK p.2 [] = true) :
    scoredCandidates agents [] = Except.error "ZeroDivisionError" := by
  induction agents with
  | nil => simp at hpass
  | cons hd tl ih =>
    obtain ⟨aid, a⟩ := hd
    by_cases hf : filterOK a []
    · simp [scoredCandidates, hf]
    · obtain ⟨p, hp, hpf⟩ := hpass
      rcases List.mem_cons.mp hp with hp | hp
      · rw [hp] at hpf
        exact absurd hpf hf
      · simp only [scoredCandidates, if_neg hf]
        exact ih ⟨p, hp, hpf⟩

/-- Claim C10: a task whose required-capability list is empty passes
can_handle_task vacuously for every agent; as soon as one agent passes the
whole eligibility filter, the capability score divides by the length of
the empty list, so the matcher raises ZeroDivisionError and the
queue-draining pass that reached this task aborts with that exception
(the task is never assigned). -/
theorem claim10_empty_caps_crash (agents : List (String × AgentState))
    (st : EngineState) (tid : String) (t : TaskRec) (rest : List String)
    (hpass : ∃ p ∈ agents, filterOK p.2 [] = true)
    (hq : st.taskQueue = tid :: rest)
    (hagents : st.agents = agents)
    (hlook : lookupTask st tid = some t)
    (hstatus : t.status = TaskStatus.pending)
    (hcaps : t.requiredCapabilities = []) :
    (∀ a : AgentState, canHandleTask a [] = true)
    ∧ findBestAgent agents [] = Except.error "ZeroDivisionError"
    ∧ processTaskQueue st = Res.exn "ZeroDivisionError" { st with taskQueue := rest } := by
  have hsc := scoredCandidates_empty_caps agents hpass
  refine ⟨fun a => rfl, by rw [findBestAgent, hsc], ?_⟩
  have hlook2 : getAssoc st.tasks tid = some t := hlook
  have hfb : findBestAgent st.agents [] = Except.error "ZeroDivisionError" := by
    rw [hagents, findBestAgent, hsc]
  rw [processTaskQueue, hq]
  simp only [List.length_cons, processQueueGo, hq, lookupTask, hlook2, hstatus, hcaps, hfb,
    if_true]

/-- Claim C10, witness: a concrete pending task with no required
capabilities and a single idle agent; draining the queue raises. -/
theorem claim10_witness :
    processTaskQueue { emptyState with
        tasks := [("t0", { t0 with requiredCapabilities := [] })]
        agents := [("A", initAgent ["c"] 2)]
        taskQueue := ["t0"] } =
      Res.exn "ZeroDivisionError" { emptyState with
        tasks := [("t0", { t0 with requiredCapabilities := [] })]
        agents := [("A", initAgent ["c"] 2)]
        taskQueue := [] } :=
  (claim10_empty_caps_crash [("A", initAgent ["c"] 2)]
    { emptyState with
        tasks := [("t0", { t0 with requiredCapabilities := [] })]
        agents := [("A", initAgent ["c"] 2)]
        taskQueue := ["t0"] }
    "t0" { t0 with requiredCapabilities := [] } []
    ⟨("A", initAgent ["c"] 2), by simp, by decide⟩ rfl rfl rfl rfl rfl).2.2

/-! ### Claim C9: conflict-resolution fallback -/

/-- Claim C9: for a known task id, when the conflict-resolution inference
call fails (or returns a malformed response), resolve_conflict returns the
deterministic fallback without raising: resolution is the first candidate
(or the empty object when there is none), confidence 0.5, and a single
sentinel conflict entry. -/
theorem claim9_resolve_fallback (env : Env) (st : EngineState) (tid : String)
    (t : TaskRec) (candidates : List String)
    (hlook : lookupTask st tid = some t)
    (hfail : env.resolveInfer t candidates = none) :
    resolveConflict env tid candidates st = Res.ok
      { conflictsIdentified := ["Resolution failed"]
        resolution :=
          match candidates with
          | c :: _ => ResolutionVal.payload c
          | [] => ResolutionVal.emptyObj
        confidenceScore := 1/2
        reasoning := "Automatic fallback due to resolution error" } st := by
  cases candidates with
  | nil => simp only [resolveConflict, hlook, hfail]
  | cons c cs => simp only [resolveConflict, hlook, hfail]

/-- Claim C9, witness (Scenario E): an empty candidate list under
inference failure yields confidence 0.5 and the empty resolution. -/
theorem claim9_witness :
    resolveConflict envFail "t0" [] { emptyState with tasks := [("t0", t0)] } =
      Res.ok
        { conflictsIdentified := ["Resolution failed"]
          resolution := ResolutionVal.emptyObj
          confidenceScore := 1/2
          reasoning := "Automatic fallback due to resolution error" }
        { emptyState with tasks := [("t0", t0)] } :=
  claim9_resolve_fallback envFail { emptyState with tasks := [("t0", t0)] }
    "t0" t0 [] rfl rfl

/-! ### Claim C8: decomposition-decision fallback -/

/-- A task with three required capabilities (the heuristic says: split). -/
def c8Task : TaskRec := { t0 with requiredCapabilities := ["a", "b", "c"] }

/-- An environment whose complexity assessment returns a well-formed JSON
object that lacks the needs_decomposition key: a malformed response for
the requested schema. -/
def envParsedNoKey : Env :=
  { envFail with assessComplexity := fun _ => ComplexityResp.parsed none }

/-- Claim C8, counterexample.  On a malformed-but-parseable response (a
JSON object without the needs_decomposition key) the code does not fall
back to the heuristic: .get supplies the default False, while the
heuristic on this three-capability task says True. -/
theorem claim8_counterexample :
    needsDecomposition envParsedNoKey c8Task = false
    ∧ decide (c8Task.requiredCapabilities.length > 2) = true
    ∧ needsDecomposition envParsedNoKey c8Task ≠
        decide (c8Task.requiredCapabilities.length > 2) := by
  refine ⟨rfl, by decide, by decide⟩

/-- Claim C8, amended: the heuristic fallback
needsDecomposition = (number of required capabilities > 2) applies exactly
when the inference call raises or its response cannot be read as a JSON
object (the bare except); a parsed object carrying the key yields that
value, and a parsed object missing the key yields False (the .get
default), not the heuristic. -/
theorem claim8_amended (env : Env) (t : TaskRec) :
    (env.assessComplexity t = ComplexityResp.inferFail →
      needsDecomposition env t = decide (t.requiredCapabilities.length > 2))
    ∧ (∀ b, env.assessComplexity t = ComplexityResp.parsed (some b) →
      needsDecomposition env t = b)
    ∧ (env.assessComplexity t = ComplexityResp.parsed none →
      needsDecomposition env t = false) := by
  refine ⟨fun h => by simp [needsDecomposition, h],
    fun b h => by simp [needsDecomposition, h],
    fun h => by simp [needsDecomposition, h]⟩

/-- Claim C8, witness for the amended theorem: under inference failure the
three-capability task falls back to the heuristic, which says True. -/
theorem claim8_amended_witness :
    needsDecomposition envFail c8Task = decide (c8Task.requiredCapabilities.length > 2)
    ∧ needsDecomposition envFail c8Task = true :=
  ⟨(claim8_amended envFail c8Task).1 rfl, by decide⟩

/-! ### Agents-field preservation: only execution start/finish touch agents -/

theorem assignTask_agents (tid aid : String) (st : EngineState) :
    ((assignTask tid aid st).state).agents = st.agents := by
  cases h1 : lookupTask st tid with
  | none => simp [assignTask, h1, Res.state]
  | some t =>
    cases h2 : lookupAgent st aid with
    | none => simp [assignTask, h1, h2, Res.state]
    | some a => simp [assignTask, h1, h2, Res.state, writeTask, updTask]

theorem processQueueGo_agents : ∀ (fuel : Nat) (st : EngineState),
    ((processQueueGo fuel st).state).agents = st.agents := by
  intro fuel
  induction fuel with
  | zero => intro st; rfl
  | succ n ih =>
    intro st
    cases hq : st.taskQueue with
    | nil => simp [processQueueGo, hq, Res.state]
    | cons tid rest =>
      simp only [processQueueGo, hq]
      cases h1 : lookupTask { st with taskQueue := rest } tid with
      | none => simp [Res.state]
      | some t =>
        by_cases hs : t.status = TaskStatus.pending
        · simp only [if_pos hs]
          cases h2 : findBestAgent ({ st with taskQueue := rest } : EngineState).agents
              t.requiredCapabilities with
          | error e => simp [Res.state]
          | ok best =>
            cases best with
            | none => simp [Res.state]
            | some aid =>
              cases ha : assignTask tid aid { st with taskQueue := rest } with
              | ok v st2 =>
                have h3 := assignTask_agents tid aid { st with taskQueue := rest }
                rw [ha] at h3
                simp only [ha]
                rw [ih st2]
                simpa [Res.state] using h3
              | exn e st2 =>
                have h3 := assignTask_agents tid aid { st with taskQueue := rest }
                rw [ha] at h3
                simp only [ha]
                simpa [Res.state] using h3
        · simp only [if_neg hs]
          exact ih { st with taskQueue := rest }

theorem processTaskQueue_agents (st : EngineState) :
    ((processTaskQueue st).state).agents = st.agents :=
  processQueueGo_agents st.taskQueue.length st

theorem handleTaskFailure_agents (tid : String) (st : EngineState) :
    ((handleTaskFailure tid st).state).agents = st.agents := by
  cases h1 : lookupTask st tid with
  | none => simp [handleTaskFailure, h1, Res.state]
  | some t =>
    by_cases hr : t.retryCount < maxRetries
    · simp only [handleTaskFailure, h1, if_pos hr]
      rw [processTaskQueue_agents]
      simp [writeTask, updTask]
    · simp [handleTaskFailure, h1, if_neg hr, Res.state]

theorem checkParentCompletion_agents (env : Env) (pid : String) (st : EngineState) :
    ((checkParentCompletion env pid st).state).agents = st.agents := by
  cases h1 : lookupTask st pid with
  | none => simp [checkParentCompletion, h1, Res.state]
  | some p =>
    cases h2 : scanChildren st p.subtasks with
    | error e => simp [checkParentCompletion, h1, h2, Res.state]
    | ok o =>
      cases o with
      | none => simp [checkParentCompletion, h1, h2, Res.state]
      | some results =>
        simp [checkParentCompletion, h1, h2, Res.state, writeTask, updTask]

theorem submitSubtasks_agents (submit : TaskData → EngineState → Res String)
    (hsub : ∀ d s, ((submit d s).state).agents = s.agents)
    (parentId parentType : String) :
    ∀ (sds : List SubtaskData) (st : EngineState),
      ((submitSubtasks submit parentId parentType sds st).state).agents = st.agents := by
  intro sds
  induction sds with
  | nil => intro st; rfl
  | cons sd rest ih =>
    intro st
    simp only [submitSubtasks]
    cases hs : submit (subtaskToData parentId parentType sd) st with
    | exn e st1 =>
      have h3 := hsub (subtaskToData parentId parentType sd) st
      rw [hs] at h3
      exact h3
    | ok sid st1 =>
      have h3 := hsub (subtaskToData parentId parentType sd) st
      rw [hs] at h3
      cases h1 : lookupTask st1 parentId with
      | none =>
        simp only [h1]
        exact h3
      | some p =>
        simp only [h1]
        rw [ih (updTask st1 parentId { p with subtasks := p.subtasks ++ [sid] })]
        simp only [updTask]
        exact h3

theorem decomposeAux_agents (submit : TaskData → EngineState → Res String)
    (hsub : ∀ d s, ((submit d s).state).agents = s.agents)
    (env : Env) (tid : String) (st : EngineState) :
    ((decomposeAux submit env tid st).state).agents = st.agents := by
  cases h1 : lookupTask st tid with
  | none => simp [decomposeAux, h1, Res.state]
  | some t =>
    cases h2 : env.decomposeResp t with
    | none =>
      simp only [decomposeAux, h1, h2]
      rw [processTaskQueue_agents]
    | some sds =>
      simp only [decomposeAux, h1, h2]
      cases hs : submitSubtasks submit tid t.taskType sds st with
      | exn e st1 =>
        have h3 := submitSubtasks_agents submit hsub tid t.taskType sds st
        rw [hs] at h3
        rw [processTaskQueue_agents]
        exact h3
      | ok v st1 =>
        have h3 := submitSubtasks_agents submit hsub tid t.taskType sds st
        rw [hs] at h3
        cases h4 : lookupTask st1 tid with
        | none =>
          simp only [h4]
          exact h3
        | some t1 =>
          simp only [h4]
          simp only [Res.state, writeTask, updTask]
          exact h3

theorem submitCore_agents (env : Env)
    (childSubmit : TaskData → EngineState → Res String)
    (hsub : ∀ d s, ((childSubmit d s).state).agents = s.agents)
    (data : TaskData) (st : EngineState) :
    ((submitCore env childSubmit data st).state).agents = st.agents := by
  cases ht : data.title with
  | none =>
    cases hd : data.description <;> cases hc : data.requiredCapabilities <;>
      simp [submitCore, ht, hd, hc, Res.state]
  | some title =>
    cases hd : data.description with
    | none => cases hc : data.requiredCapabilities <;>
        simp [submitCore, ht, hd, hc, Res.state]
    | some desc =>
      cases hc : data.requiredCapabilities with
      | none => simp [submitCore, ht, hd, hc, Res.state]
      | some caps =>
        simp only [submitCore, ht, hd, hc]
        by_cases hn : needsDecomposition env (mkTaskRec data title desc caps st.clock)
        · simp only [if_pos hn]
          cases hda : decomposeAux childSubmit env (freshTaskId st)
              { st with
                nextId := st.nextId + 1,
                clock := st.clock + 1,
                tasks := st.tasks ++ [(freshTaskId st, mkTaskRec data title desc caps st.clock)],
                totalTasks := st.totalTasks + 1 } with
          | ok v st2 =>
            have h3 := decomposeAux_agents childSubmit hsub env (freshTaskId st)
              { st with
                nextId := st.nextId + 1,
                clock := st.clock + 1,
                tasks := st.tasks ++ [(freshTaskId st, mkTaskRec data title desc caps st.clock)],
                totalTasks := st.totalTasks + 1 }
            rw [hda] at h3
            simpa [Res.state] using h3
          | exn e st2 =>
            have h3 := decomposeAux_agents childSubmit hsub env (freshTaskId st)
              { st with
                nextId := st.nextId + 1,
                clock := st.clock + 1,
                tasks := st.tasks ++ [(freshTaskId st, mkTaskRec data title desc caps st.clock)],
                totalTasks := st.totalTasks + 1 }
            rw [hda] at h3
            simpa [Res.state] using h3
        · simp only [if_neg hn]
          cases hpq : processTaskQueue
              { st with
                nextId := st.nextId + 1,
                clock := st.clock + 1,
                tasks := st.tasks ++ [(freshTaskId st, mkTaskRec data title desc caps st.clock)],
                totalTasks := st.totalTasks + 1,
                taskQueue := st.taskQueue ++ [freshTaskId st] } with
          | ok v st2 =>
            have h3 := processTaskQueue_agents
              { st with
                nextId := st.nextId + 1,
                clock := st.clock + 1,
                tasks := st.tasks ++ [(freshTaskId st, mkTaskRec data title desc caps st.clock)],
                totalTasks := st.totalTasks + 1,
                taskQueue := st.taskQueue ++ [freshTaskId st] }
            rw [hpq] at h3
            simpa [Res.state] using h3
          | exn e st2 =>
            have h3 := processTaskQueue_agents
              { st with
                nextId := st.nextId + 1,
                clock := st.clock + 1,
                tasks := st.tasks ++ [(freshTaskId st, mkTaskRec data title desc caps st.clock)],
                totalTasks := st.totalTasks + 1,
                taskQueue := st.taskQueue ++ [freshTaskId st] }
            rw [hpq] at h3
            simpa [Res.state] using h3

theorem submitTask_agents (env : Env) : ∀ (fuel : Nat) (data : TaskData)
    (st : EngineState), ((submitTask env fuel data st).state).agents = st.agents := by
  intro fuel
  induction fuel with
  | zero =>
    intro data st
    exact submitCore_agents env (fun _ s => Res.exn "RecursionError" s)
      (fun d s => rfl) data st
  | succ n ih =>
    intro data st
    exact submitCore_agents env (submitTask env n) (fun d s => ih d s) data st

theorem decomposeTask_agents (env : Env) (fuel : Nat) (tid : String)
    (st : EngineState) : ((decomposeTask env fuel tid st).state).agents = st.agents :=
  decomposeAux_agents _ (fun d s => submitTask_agents env fuel d s) env tid st

theorem resolveConflict_agents (env : Env) (tid : String)
    (candidates : List String) (st : EngineState) :
    ((resolveConflict env tid candidates st).state).agents = st.agents := by
  cases h1 : lookupTask st tid with
  | none => simp [resolveConflict, h1, Res.state]
  | some t =>
    cases h2 : env.resolveInfer t candidates with
    | none => simp [resolveConflict, h1, h2, Res.state]
    | some r => simp [resolveConflict, h1, h2, Res.state]

theorem requestCollaboration_agents (requesterId : String) (caps : List String)
    (st : EngineState) :
    ((requestCollaboration requesterId caps st).state).agents = st.agents := by
  simp only [requestCollaboration]
  cases h1 : collabScan { st with nextId := st.nextId + 1 } requesterId [] caps with
  | error e => simp [Res.state]
  | ok participants => cases participants <;> simp [Res.state]

/-! ### Claim C7: success-rate dynamics -/

theorem agentMetricsUpd_successRate_le (outcome : AgentOutcome) (b : AgentState)
    (h0 : 0 ≤ b.successRate) :
    (agentMetricsUpd outcome b).successRate ≤ b.successRate := by
  cases outcome with
  | success p d => simp [agentMetricsUpd]
  | failure e d =>
    simp only [agentMetricsUpd]
    exact mul_le_of_le_one_right h0 (by norm_num)

theorem agentFinish_successRate (tid : String) (outcome : AgentOutcome)
    (b : AgentState) :
    (agentFinish tid outcome b).successRate = (agentMetricsUpd outcome b).successRate := rfl

/-- One complete failing execution on the agent side: the task id is
appended at start and a failure outcome is processed at completion
(agents.BaseAgent.execute_task from entry to the finally block). -/
def failOnce (tid err : String) (d : ℚ) (a : AgentState) : AgentState :=
  agentFinish tid (AgentOutcome.failure err d)
    { a with currentTasks := a.currentTasks ++ [tid], status := AgentStatus.busy }

/-- k consecutive failing executions. -/
def consecFails (tid err : String) (d : ℚ) : Nat → AgentState → AgentState
  | 0, a => a
  | k + 1, a => consecFails tid err d k (failOnce tid err d a)

theorem failOnce_successRate (tid err : String) (d : ℚ) (a : AgentState) :
    (failOnce tid err d a).successRate = a.successRate * (19/20) := rfl

theorem consecFails_successRate (tid err : String) (d : ℚ) :
    ∀ (k : Nat) (a : AgentState),
      (consecFails tid err d k a).successRate = a.successRate * (19/20)^k := by
  intro k
  induction k with
  | zero => intro a; simp [consecFails]
  | succ n ih =>
    intro a
    rw [consecFails, ih, failOnce_successRate]
    ring

/-- Shape of the agents table after one engine operation: either untouched
or one agent updated by a function that never increases its success rate. -/
def AgentsMonoStep (st st' : EngineState) : Prop :=
  st'.agents = st.agents
  ∨ ∃ (aid0 : String) (a0 : AgentState) (f : AgentState → AgentState),
      lookupAgent st aid0 = some a0
      ∧ st'.agents = updAssoc st.agents aid0 (f a0)
      ∧ ∀ b : AgentState, 0 ≤ b.successRate → (f b).successRate ≤ b.successRate

theorem successRate_mono_of_step (st st' : EngineState)
    (h : AgentsMonoStep st st') (aid : String) (a a' : AgentState)
    (h1 : lookupAgent st aid = some a) (h2 : lookupAgent st' aid = some a')
    (h0 : 0 ≤ a.successRate) : a'.successRate ≤ a.successRate := by
  rcases h with heq | ⟨aid0, a0, f, ha0, hupd, hf⟩
  · simp only [lookupAgent] at h1 h2
    rw [heq, h1] at h2
    cases h2
    exact le_refl _
  · by_cases haid : aid = aid0
    · subst haid
      rw [h1] at ha0
      cases ha0
      simp only [lookupAgent] at h1 h2
      rw [hupd, getAssoc_updAssoc_same st.agents aid a (f a) h1] at h2
      cases h2
      exact hf a h0
    · simp only [lookupAgent] at h1 h2
      rw [hupd, getAssoc_updAssoc_ne st.agents aid0 aid (f a0) haid, h1] at h2
      cases h2
      exact le_refl _

theorem execStart_step (tid aid0 : String) (st : EngineState) :
    AgentsMonoStep st ((execStart tid aid0 st).state) := by
  cases h1 : lookupTask st tid with
  | none =>
    cases h2 : lookupAgent st aid0 with
    | none => exact Or.inl (by simp [execStart, h1, h2, Res.state])
    | some a0 => exact Or.inl (by simp [execStart, h1, h2, Res.state])
  | some t =>
    cases h2 : lookupAgent st aid0 with
    | none => exact Or.inl (by simp [execStart, h1, h2, Res.state])
    | some a0 =>
      refine Or.inr ⟨aid0, a0,
        fun b => { b with currentTasks := b.currentTasks ++ [tid], status := AgentStatus.busy },
        h2, ?_, fun b hb => le_refl _⟩
      simp [execStart, h1, h2, Res.state, updAgent, writeTask, updTask]

theorem execFinish_step (env : Env) (tid aid0 : String) (outcome : AgentOutcome)
    (fault : Option String) (st : EngineState) :
    AgentsMonoStep st ((execFinish env tid aid0 outcome fault st).state) := by
  cases h1 : lookupTask st tid with
  | none =>
    cases h2 : lookupAgent st aid0 with
    | none => exact Or.inl (by simp [execFinish, h1, h2, Res.state])
    | some a0 => exact Or.inl (by simp [execFinish, h1, h2, Res.state])
  | some t =>
    cases h2 : lookupAgent st aid0 with
    | none => exact Or.inl (by simp [execFinish, h1, h2, Res.state])
    | some a0 =>
      by_cases hmem : tid ∈ a0.currentTasks
      · refine Or.inr ⟨aid0, a0, agentFinish tid outcome, h2, ?_,
          fun b hb => (agentFinish_successRate tid outcome b).trans_le
            (agentMetricsUpd_successRate_le outcome b hb)⟩
        simp only [execFinish, h1, h2, if_pos hmem]
        cases fault with
        | some msg => simp [Res.state, writeTask, updTask, updAgent]
        | none =>
          cases outcome with
          | success payload d =>
            cases hp : t.parentTaskId with
            | none => simp [Res.state, writeTask, updTask, updAgent, hp]
            | some pid =>
              simp only [hp]
              rw [checkParentCompletion_agents]
              simp [writeTask, updTask, updAgent]
          | failure err d =>
            rw [handleTaskFailure_agents]
            simp [writeTask, updTask, updAgent]
      · refine Or.inr ⟨aid0, a0, agentMetricsUpd outcome, h2, ?_,
          fun b hb => agentMetricsUpd_successRate_le outcome b hb⟩
        simp only [execFinish, h1, h2, if_neg hmem]
        simp [Res.state, writeTask, updTask, updAgent]

/-- Claim C7: successRate starts at 1.0 for a fresh agent, is multiplied
by 0.95 on each failing execution and is changed by no other engine
operation, so after k consecutive failures it equals 0.95^k exactly (the
embedding computes over ℚ), and every engine operation leaves every agent
successRate non-increased. -/
theorem claim7_successRate (caps : List String) (maxTasks : Nat) :
    (initAgent caps maxTasks).successRate = 1
    ∧ (∀ (tid err : String) (d : ℚ) (k : Nat),
        (consecFails tid err d k (initAgent caps maxTasks)).successRate = (19/20)^k)
    ∧ (∀ (env : Env) (op : EngineOp) (st : EngineState) (aid : String)
        (a a' : AgentState),
        lookupAgent st aid = some a →
        lookupAgent (runOp env op st) aid = some a' →
        0 ≤ a.successRate →
        a'.successRate ≤ a.successRate) := by
  refine ⟨rfl, ?_, ?_⟩
  · intro tid err d k
    rw [consecFails_successRate]
    simp [initAgent]
  · intro env op st aid a a' h1 h2 h0
    have hstep : AgentsMonoStep st (runOp env op st) := by
      cases op with
      | submitOp fuel data => exact Or.inl (submitTask_agents env fuel data st)
      | decomposeOp fuel tid => exact Or.inl (decomposeTask_agents env fuel tid st)
      | processQueueOp => exact Or.inl (processTaskQueue_agents st)
      | execStartOp tid aid0 => exact execStart_step tid aid0 st
      | execFinishOp tid aid0 outcome fault =>
        exact execFinish_step env tid aid0 outcome fault st
      | handleFailureOp tid => exact Or.inl (handleTaskFailure_agents tid st)
      | checkParentOp pid => exact Or.inl (checkParentCompletion_agents env pid st)
      | resolveConflictOp tid cands => exact Or.inl (resolveConflict_agents env tid cands st)
      | requestCollabOp r caps2 => exact Or.inl (requestCollaboration_agents r caps2 st)
    exact successRate_mono_of_step st (runOp env op st) hstep aid a a' h1 h2 h0

/-- A busy agent holding one running task, used for concrete executions. -/
def c7Agent : AgentState :=
  { initAgent ["c"] 2 with currentTasks := ["t0"], status := AgentStatus.busy }

/-- A state in which c7Agent is executing the only task. -/
def c7State : EngineState :=
  { emptyState with
      tasks := [("t0", { t0 with
        requiredCapabilities := ["z"],
        status := TaskStatus.inProgress,
        assignedAgentId := some "A" })]
      agents := [("A", c7Agent)] }

/-- Claim C7, witness: a fresh agent has rate 1; two consecutive failures
give (19/20)^2; one concrete failing execution does not increase the rate. -/
theorem claim7_witness :
    (initAgent ["c"] 2).successRate = 1
    ∧ (consecFails "t" "e" 1 2 (initAgent ["c"] 2)).successRate = (19/20)^2
    ∧ (agentFinish "t0" (AgentOutcome.failure "boom" 1) c7Agent).successRate ≤
        c7Agent.successRate := by
  have h := claim7_successRate ["c"] 2
  refine ⟨h.1, h.2.1 "t" "e" 1 2, ?_⟩
  exact h.2.2 envFail
    (EngineOp.execFinishOp "t0" "A" (AgentOutcome.failure "boom" 1) none)
    c7State "A" c7Agent (agentFinish "t0" (AgentOutcome.failure "boom" 1) c7Agent)
    rfl rfl (by norm_num [c7Agent, initAgent])

/-! ### Claim C2: unexpected faults and the retry policy -/

/-- The task record held by c7State. -/
def c2Task : TaskRec :=
  { t0 with
      requiredCapabilities := ["z"]
      status := TaskStatus.inProgress
      assignedAgentId := some "A" }

/-- A structured agent failure. -/
def c2Out : AgentOutcome := AgentOutcome.failure "boom" 1

/-- The engine state after an execution that ends in an unexpected fault
reaching the except branch of _execute_task. -/
def c2FaultRun : EngineState :=
  (execFinish envFail "t0" "A" c2Out (some "crash") c7State).state

/-- The engine state after the same execution ending in a structured
failure result. -/
def c2StructRun : EngineState :=
  (execFinish envFail "t0" "A" c2Out none c7State).state

/-- Claim C2, counterexample.  At the same starting state (retryCount 0,
maxRetries 3, so a retry would be granted), the structured-failure path
re-enqueues the task as Pending with retryCount 1, but the
unexpected-fault path leaves it terminal Failed with retryCount 0 and an
empty queue: the except branch of _execute_task never calls
_handle_task_failure, so the two paths are not handled identically. -/
theorem claim2_counterexample :
    (c2FaultRun.taskQueue = []
      ∧ lookupTask c2FaultRun "t0" =
          some { c2Task with
                  status := TaskStatus.failed,
                  errorMessage := some "crash",
                  completedAt := some 0 })
    ∧ (c2StructRun.taskQueue = ["t0"]
      ∧ lookupTask c2StructRun "t0" =
          some { c2Task with
                  status := TaskStatus.pending,
                  assignedAgentId := none,
                  errorMessage := some "boom",
                  retryCount := 1,
                  completedAt := some 0 })
    ∧ lookupTask c2FaultRun "t0" ≠ lookupTask c2StructRun "t0" := by
  refine ⟨⟨rfl, rfl⟩, ⟨rfl, rfl⟩, by decide⟩

/-- Claim C2, amended: an unexpected fault during execution sets the task
status to Failed, records the fault text as the error, stamps completed_at,
increments the failed-task counter and performs the agent-side cleanup, but does not
invoke the retry policy: the run returns normally with the task queue
unchanged and the retry counter unchanged (terminal Failed regardless of
retryCount < maxRetries). -/
theorem claim2_amended (env : Env) (tid aid : String) (outcome : AgentOutcome)
    (msg : String) (st : EngineState) (t : TaskRec) (a : AgentState)
    (h1 : lookupTask st tid = some t) (h2 : lookupAgent st aid = some a)
    (hmem : tid ∈ a.currentTasks) :
    execFinish env tid aid outcome (some msg) st = Res.ok ()
      { writeTask (updAgent st aid (agentFinish tid outcome a)) tid t
          { t with
              status := TaskStatus.failed,
              errorMessage := some msg,
              completedAt := some st.clock } with
          failedTasks := st.failedTasks + 1, clock := st.clock + 1 }
    ∧ ((execFinish env tid aid outcome (some msg) st).state).taskQueue = st.taskQueue
    ∧ lookupTask ((execFinish env tid aid outcome (some msg) st).state) tid =
        some { t with
                status := TaskStatus.failed,
                errorMessage := some msg,
                completedAt := some st.clock } := by
  have hrun : execFinish env tid aid outcome (some msg) st = Res.ok ()
      { writeTask (updAgent st aid (agentFinish tid outcome a)) tid t
          { t with
              status := TaskStatus.failed,
              errorMessage := some msg,
              completedAt := some st.clock } with
          failedTasks := st.failedTasks + 1, clock := st.clock + 1 } := by
    simp only [execFinish, h1, h2, if_pos hmem]
    rfl
  refine ⟨hrun, ?_, ?_⟩
  · rw [hrun]
    simp [Res.state, writeTask, updTask, updAgent]
  · rw [hrun]
    simp only [Res.state, writeTask, updTask, updAgent, lookupTask]
    exact getAssoc_updAssoc_same _ _ t _ h1

/-- Claim C2, witness for the amended theorem: the concrete fault run
leaves the task Failed with the fault text recorded and the queue empty
(unchanged). -/
theorem claim2_amended_witness :
    c2FaultRun.taskQueue = []
    ∧ lookupTask c2FaultRun "t0" =
        some { c2Task with
                status := TaskStatus.failed,
                errorMessage := some "crash",
                completedAt := some 0 } :=
  ⟨(claim2_amended envFail "t0" "A" c2Out "crash" c7State c2Task c7Agent
      rfl rfl (by decide)).2.1,
   (claim2_amended envFail "t0" "A" c2Out "crash" c7State c2Task c7Agent
      rfl rfl (by decide)).2.2⟩

/-! ### Claim C5: the concurrency cap can be overshot -/

/-- A fresh two-slot agent holding the only matching capability. -/
def c5Agent : AgentState := initAgent ["c"] 2

/-- Three pending one-capability tasks already sitting in the queue, one
eligible agent with two slots. -/
def c5Start : EngineState :=
  { emptyState with
      tasks := [("t1", { t0 with title := "t1" }),
                ("t2", { t0 with title := "t2" }),
                ("t3", { t0 with title := "t3" })]
      agents := [("A", c5Agent)]
      taskQueue := ["t1", "t2", "t3"] }

/-- One queue-draining pass over the three queued tasks. -/
def c5Assigned : EngineState := (processTaskQueue c5Start).state

/-- The three spawned executions then start (each appends its task id to
the agent load before the first suspension point). -/
def c5AfterStarts : EngineState :=
  (execStart "t3" "A"
    ((execStart "t2" "A" ((execStart "t1" "A" c5Assigned).state)).state)).state

/-- Claim C5: the matcher capacity check reads current_tasks at assignment
time, but the task id is only appended when the spawned execution starts;
a single queue drain over three matching tasks therefore assigns all three
to the same two-slot agent (each check still sees an empty load), and once
the three executions start the agent holds three concurrent tasks,
violating len(currentTasks) <= maxConcurrentTasks. -/
theorem claim5_capacity_violated :
    ((lookupTask c5Assigned "t1").map (fun t => (t.status, t.assignedAgentId)) =
        some (TaskStatus.assigned, some "A")
      ∧ (lookupTask c5Assigned "t2").map (fun t => (t.status, t.assignedAgentId)) =
        some (TaskStatus.assigned, some "A")
      ∧ (lookupTask c5Assigned "t3").map (fun t => (t.status, t.assignedAgentId)) =
        some (TaskStatus.assigned, some "A"))
    ∧ lookupAgent c5AfterStarts "A" =
        some { c5Agent with
                currentTasks := ["t1", "t2", "t3"],
                status := AgentStatus.busy }
    ∧ c5Agent.maxConcurrentTasks = 2
    ∧ ¬ (("t1" :: "t2" :: "t3" :: []).length ≤ c5Agent.maxConcurrentTasks) := by
  refine ⟨⟨rfl, rfl, rfl⟩, rfl, rfl, by decide⟩

/-! ### Claim C3: re-running the parent-completion check -/

/-- An environment with a deterministic, always-successful synthesizer. -/
def c3Env : Env := { envFail with synthesize := fun _ _ _ => some "synth" }

/-- A parent task in progress whose single child is completed. -/
def c3Start : EngineState :=
  { emptyState with tasks :=
      [("p", { t0 with
                title := "p",
                status := TaskStatus.inProgress,
                subtasks := ["c1"] }),
       ("c1", { t0 with
                 title := "c1",
                 status := TaskStatus.completed,
                 result := some "r1",
                 parentTaskId := some "p" })] }

/-- The state after the first parent-completion check. -/
def c3Run1 : EngineState := (checkParentCompletion c3Env "p" c3Start).state

/-- The state after running the check a second time. -/
def c3Run2 : EngineState := (checkParentCompletion c3Env "p" c3Run1).state

/-- Claim C3, counterexample.  After the first check completes the parent,
running the check a second time is not a no-op and not even idempotent on
the task table: the code has no guard on the parent status, the children
are still all Completed, so synthesis is invoked again (the ghost
synthesis counter reaches 2) and the parent record is rewritten with a
fresh completed_at timestamp (clock reading 1 instead of 0). -/
theorem claim3_counterexample :
    c3Run1.synthCalls = 1
    ∧ (lookupTask c3Run1 "p").map (fun t => t.status) = some TaskStatus.completed
    ∧ (lookupTask c3Run1 "p").map (fun t => t.completedAt) = some (some 0)
    ∧ c3Run2.synthCalls = 2
    ∧ (lookupTask c3Run2 "p").map (fun t => t.completedAt) = some (some 1)
    ∧ c3Run2.tasks ≠ c3Run1.tasks := by
  refine ⟨rfl, rfl, rfl, rfl, rfl, ?_⟩
  intro h
  have h2 : some (some 1) = some (some (0 : Nat)) := by
    calc some (some 1)
        = (lookupTask c3Run2 "p").map (fun t => t.completedAt) := rfl
      _ = (lookupTask c3Run1 "p").map (fun t => t.completedAt) := by
          simp only [lookupTask, h]
      _ = some (some 0) := rfl
  simp at h2

theorem scanChildren_congr (st st' : EngineState) :
    ∀ (l : List String), (∀ c ∈ l, lookupTask st' c = lookupTask st c) →
      scanChildren st' l = scanChildren st l := by
  intro l
  induction l with
  | nil => intro _; rfl
  | cons c rest ih =>
    intro h
    have hc := h c (List.mem_cons_self _ _)
    cases hl : lookupTask st c with
    | none => simp only [scanChildren, hc, hl]
    | some ct =>
      by_cases hcs : ct.status = TaskStatus.completed
      · simp only [scanChildren, hc, hl, if_pos hcs]
        rw [ih (fun x hx => h x (List.mem_cons_of_mem _ hx))]
      · simp only [scanChildren, hc, hl, if_neg hcs]

/-- Claim C3, amended: when every child of a (non-self-referential) parent
is Completed, the completion check synthesizes and completes the parent,
stamping completed_at with the current clock; running the check a second
time invokes synthesis again and rewrites the parent record with a fresh
completed_at, so the second run changes the task table (it is neither a
no-op nor idempotent on task data), although the parent status, result and
progress are rewritten to the same values when the synthesizer is
deterministic. -/
theorem claim3_amended (env : Env) (st : EngineState) (pid : String) (p : TaskRec)
    (results : List (Option String))
    (h1 : lookupTask st pid = some p)
    (hnotself : pid ∉ p.subtasks)
    (hscan : scanChildren st p.subtasks = Except.ok (some results)) :
    ((checkParentCompletion env pid st).state).synthCalls = st.synthCalls + 1
    ∧ lookupTask ((checkParentCompletion env pid st).state) pid =
        some { p with
                status := TaskStatus.completed
                result := some (match env.synthesize p.title p.description results with
                                | some c => c
                                | none => fallbackSynth results)
                completedAt := some st.clock
                progressPercentage := 100 }
    ∧ ((checkParentCompletion env pid
          ((checkParentCompletion env pid st).state)).state).synthCalls =
        st.synthCalls + 2
    ∧ lookupTask ((checkParentCompletion env pid
          ((checkParentCompletion env pid st).state)).state) pid =
        some { p with
                status := TaskStatus.completed
                result := some (match env.synthesize p.title p.description results with
                                | some c => c
                                | none => fallbackSynth results)
                completedAt := some (st.clock + 1)
                progressPercentage := 100 }
    ∧ ((checkParentCompletion env pid
          ((checkParentCompletion env pid st).state)).state).tasks ≠
        ((checkParentCompletion env pid st).state).tasks := by
  have hrun1 : checkParentCompletion env pid st = Res.ok ()
      (writeTask { st with synthCalls := st.synthCalls + 1, clock := st.clock + 1 }
        pid p
        { p with
            status := TaskStatus.completed
            result := some (match env.synthesize p.title p.description results with
                            | some c => c
                            | none => fallbackSynth results)
            completedAt := some st.clock
            progressPercentage := 100 }) := by
    simp only [checkParentCompletion, h1, hscan]
  have hlook1 : lookupTask ((checkParentCompletion env pid st).state) pid =
      some { p with
              status := TaskStatus.completed
              result := some (match env.synthesize p.title p.description results with
                              | some c => c
                              | none => fallbackSynth results)
              completedAt := some st.clock
              progressPercentage := 100 } := by
    rw [hrun1]
    simp only [Res.state, writeTask, updTask, lookupTask]
    exact getAssoc_updAssoc_same _ _ p _ h1
  have hclock1 : ((checkParentCompletion env pid st).state).clock = st.clock + 1 := by
    rw [hrun1]
    simp [Res.state, writeTask, updTask]
  have hchild : ∀ c ∈ p.subtasks,
      lookupTask ((checkParentCompletion env pid st).state) c = lookupTask st c := by
    intro c hcmem
    have hne : c ≠ pid := fun hc => hnotself (hc ▸ hcmem)
    rw [hrun1]
    simp only [Res.state, writeTask, updTask, lookupTask]
    exact getAssoc_updAssoc_ne _ _ _ _ hne
  have hscan1 : scanChildren ((checkParentCompletion env pid st).state) p.subtasks =
      Except.ok (some results) :=
    (scanChildren_congr st _ p.subtasks hchild).trans hscan
  have hrun2 : checkParentCompletion env pid ((checkParentCompletion env pid st).state) =
      Res.ok ()
        (writeTask { ((checkParentCompletion env pid st).state) with
            synthCalls := ((checkParentCompletion env pid st).state).synthCalls + 1,
            clock := ((checkParentCompletion env pid st).state).clock + 1 }
          pid
          { p with
              status := TaskStatus.completed
              result := some (match env.synthesize p.title p.description results with
                              | some c => c
                              | none => fallbackSynth results)
              completedAt := some st.clock
              progressPercentage := 100 }
          { p with
              status := TaskStatus.completed
              result := some (match env.synthesize p.title p.description results with
                              | some c => c
                              | none => fallbackSynth results)
              completedAt := some (st.clock + 1)
              progressPercentage := 100 }) := by
    generalize hl : (checkParentCompletion env pid st).state = st1
        at hlook1 hscan1 hclock1 ⊢
    simp only [checkParentCompletion, hlook1, hscan1, hclock1]
  have hlook2 : lookupTask ((checkParentCompletion env pid
        ((checkParentCompletion env pid st).state)).state) pid =
      some { p with
              status := TaskStatus.completed
              result := some (match env.synthesize p.title p.description results with
                              | some c => c
                              | none => fallbackSynth results)
              completedAt := some (st.clock + 1)
              progressPercentage := 100 } := by
    rw [hrun2]
    simp only [Res.state, writeTask, updTask, lookupTask]
    exact getAssoc_updAssoc_same _ _ _ _ hlook1
  refine ⟨?_, hlook1, ?_, hlook2, ?_⟩
  · rw [hrun1]
    simp [Res.state, writeTask, updTask]
  · rw [hrun2, hrun1]
    simp [Res.state, writeTask, updTask]
  · intro heq
    have h24 : lookupTask ((checkParentCompletion env pid
          ((checkParentCompletion env pid st).state)).state) pid =
        lookupTask ((checkParentCompletion env pid st).state) pid := by
      simp only [lookupTask, heq]
    rw [hlook2, hlook1] at h24
    have hPP := Option.some.inj h24
    have hf := congrArg TaskRec.completedAt hPP
    simp only at hf
    simp at hf

/-- Claim C3, witness for the amended theorem: the concrete two-task state
above reaches synthesis count 2 after the second run, and the second run
changes the task table (the parent completion timestamp is rewritten). -/
theorem claim3_amended_witness :
    c3Run1.synthCalls = 0 + 1
    ∧ c3Run2.synthCalls = 0 + 2
    ∧ c3Run2.tasks ≠ c3Run1.tasks := by
  have h := claim3_amended c3Env c3Start "p"
    { t0 with title := "p", status := TaskStatus.inProgress, subtasks := ["c1"] }
    [some "r1"] rfl (by decide) rfl
  exact ⟨h.1, h.2.2.1, h.2.2.2.2⟩

/-! ### Claim C6: do the externally-facing operations ever raise? -/

/-- A submit payload with no title. -/
def noTitleData : TaskData :=
  { title := none
    description := some "d"
    taskType := none
    requiredCapabilities := some ["c"]
    priority := none
    parentTaskId := none }

/-- Claim C6, counterexample.  submit_task reads task_data with [] and so
raises KeyError on a payload missing its title; resolve_conflict reads
self.tasks[task_id] outside any guard and so raises KeyError on an
unknown task id.  Neither returns a structured failure result. -/
theorem claim6_counterexample :
    submitTask envFail 1 noTitleData emptyState = Res.exn "KeyError" emptyState
    ∧ resolveConflict envFail "missing" [] emptyState =
        Res.exn "KeyError" emptyState := by
  exact ⟨rfl, rfl⟩

theorem getAssoc_append_left {α : Type} (l1 l2 : List (String × α)) (k : String)
    (v : α) (h : getAssoc l1 k = some v) : getAssoc (l1 ++ l2) k = some v := by
  induction l1 with
  | nil => simp [getAssoc] at h
  | cons hd tl ih =>
    by_cases hk : hd.1 = k
    · simp only [getAssoc, List.cons_append, List.find?, decide_eq_true hk] at h ⊢
      exact h
    · simp only [getAssoc, List.cons_append, List.find?, decide_eq_false hk] at h ⊢
      exact ih h

theorem getAssoc_append_right {α : Type} (l1 l2 : List (String × α)) (k : String)
    (h : getAssoc l1 k = none) : getAssoc (l1 ++ l2) k = getAssoc l2 k := by
  induction l1 with
  | nil => rfl
  | cons hd tl ih =>
    by_cases hk : hd.1 = k
    · simp [getAssoc, List.find?, decide_eq_true hk] at h
    · simp only [getAssoc, List.cons_append, List.find?, decide_eq_false hk] at h ⊢
      exact ih h

theorem getAssoc_of_exists {α : Type} (l : List (String × α)) (k : String)
    (h : ∃ p ∈ l, p.1 = k) : ∃ v, getAssoc l k = some v := by
  induction l with
  | nil => simp at h
  | cons hd tl ih =>
    by_cases hk : hd.1 = k
    · exact ⟨hd.2, by simp [getAssoc, List.find?, decide_eq_true hk]⟩
    · obtain ⟨p, hp, hpk⟩ := h
      rcases List.mem_cons.mp hp with hph | hp
      · exact absurd (hph ▸ hpk) hk
      · obtain ⟨v, hv⟩ := ih ⟨p, hp, hpk⟩
        refine ⟨v, ?_⟩
        simp only [getAssoc, List.find?, decide_eq_false hk]
        simpa [getAssoc] using hv

theorem findBestAgent_ok (agents : List (String × AgentState))
    (required : List String) (h : required ≠ []) :
    ∃ o, findBestAgent agents required = Except.ok o := by
  rw [findBestAgent, scoredCandidates_eq agents required h]
  exact ⟨_, rfl⟩

theorem findBestAgent_some_mem (agents : List (String × AgentState))
    (required : List String) (h : required ≠ []) (aid : String)
    (hf : findBestAgent agents required = Except.ok (some aid)) :
    ∃ a, getAssoc agents aid = some a := by
  rw [findBestAgent, scoredCandidates_eq agents required h] at hf
  have hp : pickBest ((agents.filter (fun p => filterOK p.2 required)).map
      (fun p => (p.1, totalScore p.2 required))) = some aid := by
    simpa using hf
  obtain ⟨s, hmem, _⟩ := pickBest_max _ _ hp
  obtain ⟨p, hpf, hpe⟩ := List.mem_map.mp hmem
  have hfst : p.1 = aid := congrArg Prod.fst hpe
  exact getAssoc_of_exists agents aid ⟨p, List.mem_of_mem_filter hpf, hfst⟩

/-- The queue-sanity invariant under which draining cannot raise: every
queued id resolves to a task, and every queued Pending task has a nonempty
required-capability list. -/
def QueueOK (st : EngineState) : Prop :=
  ∀ qid ∈ st.taskQueue, ∃ t, lookupTask st qid = some t ∧
    (t.status = TaskStatus.pending → t.requiredCapabilities ≠ [])

theorem processQueueGo_ok : ∀ (fuel : Nat) (st : EngineState),
    st.taskQueue.length ≤ fuel → QueueOK st →
    ∃ st', processQueueGo fuel st = Res.ok () st' := by
  intro fuel
  induction fuel with
  | zero => intro st _ _; exact ⟨st, rfl⟩
  | succ n ih =>
    intro st hlen hqok
    cases hq : st.taskQueue with
    | nil => exact ⟨st, by simp [processQueueGo, hq]⟩
    | cons tid rest =>
      obtain ⟨t, hlook, himp⟩ := hqok tid (by rw [hq]; exact List.mem_cons_self _ _)
      have hlook1 : lookupTask { st with taskQueue := rest } tid = some t := hlook
      have hlen1 : rest.length ≤ n := by
        rw [hq] at hlen
        simpa using hlen
      by_cases hs : t.status = TaskStatus.pending
      · have hcaps : t.requiredCapabilities ≠ [] := himp hs
        obtain ⟨o, hfb⟩ := findBestAgent_ok st.agents t.requiredCapabilities hcaps
        have hfb1 : findBestAgent ({ st with taskQueue := rest } : EngineState).agents
            t.requiredCapabilities = Except.ok o := hfb
        cases o with
        | none =>
          refine ⟨{ st with taskQueue := rest ++ [tid] }, ?_⟩
          simp only [processQueueGo, hq, hlook1, if_pos hs, hfb1]
        | some aid =>
          obtain ⟨a, hag⟩ := findBestAgent_some_mem st.agents t.requiredCapabilities
            hcaps aid hfb
          have hag1 : lookupAgent ({ st with taskQueue := rest } : EngineState) aid =
              some a := hag
          have hassign : assignTask tid aid { st with taskQueue := rest } = Res.ok ()
              { writeTask { st with taskQueue := rest } tid t
                  { t with
                      assignedAgentId := some aid,
                      assignedAt := some st.clock,
                      status := TaskStatus.assigned } with
                  clock := st.clock + 1 } := by
            simp only [assignTask, hlook1, hag1]
          have hq2ok : QueueOK { writeTask { st with taskQueue := rest } tid t
              { t with
                  assignedAgentId := some aid,
                  assignedAt := some st.clock,
                  status := TaskStatus.assigned } with
              clock := st.clock + 1 } := by
            intro qid hqid
            simp only [writeTask, updTask] at hqid ⊢
            by_cases hqt : qid = tid
            · subst hqt
              refine ⟨{ t with
                  assignedAgentId := some aid,
                  assignedAt := some st.clock,
                  status := TaskStatus.assigned },
                ?_, ?_⟩
              · simp only [lookupTask]
                exact getAssoc_updAssoc_same _ _ t _ hlook
              · intro hc
                exact absurd hc (by simp)
            · obtain ⟨tq, hlq, himpq⟩ := hqok qid (by rw [hq]; exact List.mem_cons_of_mem _ hqid)
              refine ⟨tq, ?_, himpq⟩
              simp only [lookupTask]
              exact (getAssoc_updAssoc_ne _ _ _ _ hqt).trans hlq
          have hlen2 : ({ writeTask { st with taskQueue := rest } tid t
              { t with
                  assignedAgentId := some aid,
                  assignedAt := some st.clock,
                  status := TaskStatus.assigned } with
              clock := st.clock + 1 } :
                EngineState).taskQueue.length ≤ n := by
            simpa [writeTask, updTask] using hlen1
          obtain ⟨st', hst'⟩ := ih _ hlen2 hq2ok
          refine ⟨st', ?_⟩
          simp only [processQueueGo, hq, hlook1, if_pos hs, hfb1, hassign]
          exact hst'
      · have hq1ok : QueueOK ({ st with taskQueue := rest } : EngineState) := by
          intro qid hqid
          exact hqok qid (by rw [hq]; exact List.mem_cons_of_mem _ hqid)
        obtain ⟨st', hst'⟩ := ih { st with taskQueue := rest } hlen1 hq1ok
        refine ⟨st', ?_⟩
        simp only [processQueueGo, hq, hlook1, if_neg hs]
        exact hst'

theorem addCandidates_ok (st : EngineState) (requester : String) :
    ∀ (ids acc : List String),
      (∀ aid ∈ ids, ∃ a, lookupAgent st aid = some a) →
      ∃ acc', addCandidates st requester acc ids = Except.ok acc' := by
  intro ids
  induction ids with
  | nil => intro acc _; exact ⟨acc, rfl⟩
  | cons aid rest ih =>
    intro acc hall
    by_cases hc : aid ≠ requester ∧ ¬ aid ∈ acc
    · obtain ⟨a, ha⟩ := hall aid (List.mem_cons_self _ _)
      obtain ⟨acc', hacc'⟩ := ih
        (if a.status ≠ AgentStatus.offline then acc ++ [aid] else acc)
        (fun x hx => hall x (List.mem_cons_of_mem _ hx))
      refine ⟨acc', ?_⟩
      simp only [addCandidates, if_pos hc, ha]
      exact hacc'
    · obtain ⟨acc', hacc'⟩ := ih acc (fun x hx => hall x (List.mem_cons_of_mem _ hx))
      refine ⟨acc', ?_⟩
      simp only [addCandidates, if_neg hc]
      exact hacc'

theorem collabScan_ok (st : EngineState) (requester : String)
    (hreg : ∀ cap ids, getAssoc st.agentRegistry cap = some ids →
      ∀ aid ∈ ids, ∃ a, lookupAgent st aid = some a) :
    ∀ (caps acc : List String),
      ∃ acc', collabScan st requester acc caps = Except.ok acc' := by
  intro caps
  induction caps with
  | nil => intro acc; exact ⟨acc, rfl⟩
  | cons cap rest ih =>
    intro acc
    have hids : ∀ aid ∈ registryGet st cap, ∃ a, lookupAgent st aid = some a := by
      intro aid haid
      cases hg : getAssoc st.agentRegistry cap with
      | none => rw [registryGet, hg] at haid; simp at haid
      | some ids =>
        rw [registryGet, hg] at haid
        exact hreg cap ids hg aid haid
    obtain ⟨acc1, hacc1⟩ := addCandidates_ok st requester (registryGet st cap) acc hids
    obtain ⟨acc', hacc'⟩ := ih acc1
    refine ⟨acc', ?_⟩
    simp only [collabScan, hacc1]
    exact hacc'

/-- Claim C6, amended: the externally-facing operations return structured
results only on well-formed inputs.  submit_task completes normally when
the mandatory fields are present, the capability list is nonempty, the
complexity assessment resolves to the atomic path, the fresh id is unused
and the pre-existing queue is sane; resolve_conflict completes normally
exactly for known task ids; request_collaboration completes normally
whenever the capability index is consistent with the agent table;
get_system_status is a total pure read.  Outside these conditions KeyError
(missing fields, unknown ids) and ZeroDivisionError (empty capability
lists) propagate to the caller, refuting the original claim. -/
theorem claim6_amended (env : Env) :
    (∀ (data : TaskData) (st : EngineState) (fuel : Nat)
       (title desc : String) (caps : List String),
       data.title = some title → data.description = some desc →
       data.requiredCapabilities = some caps → caps ≠ [] →
       needsDecomposition env (mkTaskRec data title desc caps st.clock) = false →
       lookupTask st (freshTaskId st) = none →
       QueueOK st →
       ∃ tid st', submitTask env fuel data st = Res.ok tid st')
    ∧ (∀ (st : EngineState) (tid : String) (t : TaskRec) (cands : List String),
       lookupTask st tid = some t →
       ∃ r, resolveConflict env tid cands st = Res.ok r st)
    ∧ (∀ (st : EngineState) (requester : String) (caps : List String),
       (∀ cap ids, getAssoc st.agentRegistry cap = some ids →
          ∀ aid ∈ ids, ∃ a, lookupAgent st aid = some a) →
       ∃ r st', requestCollaboration requester caps st = Res.ok r st') := by
  refine ⟨?_, ?_, ?_⟩
  · intro data st fuel title desc caps ht hd hc hne hatomic hfresh hqok
    have hcore : ∀ childSubmit, ∃ tid st',
        submitCore env childSubmit data st = Res.ok tid st' := by
      intro childSubmit
      have hqok1 : QueueOK { st with
          nextId := st.nextId + 1,
          clock := st.clock + 1,
          tasks := st.tasks ++ [(freshTaskId st, mkTaskRec data title desc caps st.clock)],
          totalTasks := st.totalTasks + 1,
          taskQueue := st.taskQueue ++ [freshTaskId st] } := by
        intro qid hqid
        simp only [List.mem_append, List.mem_singleton] at hqid
        rcases hqid with hqid | hqid
        · obtain ⟨tq, hlq, himpq⟩ := hqok qid hqid
          refine ⟨tq, ?_, himpq⟩
          simp only [lookupTask] at hlq ⊢
          exact getAssoc_append_left _ _ _ _ hlq
        · subst hqid
          refine ⟨mkTaskRec data title desc caps st.clock, ?_, fun _ => hne⟩
          simp only [lookupTask] at hfresh ⊢
          rw [getAssoc_append_right _ _ _ hfresh]
          simp [getAssoc, List.find?]
      obtain ⟨st', hst'⟩ := processQueueGo_ok _ _ (le_refl _) hqok1
      have hpt : processTaskQueue { st with
          nextId := st.nextId + 1,
          clock := st.clock + 1,
          tasks := st.tasks ++ [(freshTaskId st, mkTaskRec data title desc caps st.clock)],
          totalTasks := st.totalTasks + 1,
          taskQueue := st.taskQueue ++ [freshTaskId st] } = Res.ok () st' := hst'
      refine ⟨freshTaskId st, st', ?_⟩
      simp only [submitCore, ht, hd, hc, hatomic, Bool.false_eq_true, if_false, hpt]
    cases fuel with
    | zero => exact hcore _
    | succ n => exact hcore _
  · intro st tid t cands hlook
    cases hinf : env.resolveInfer t cands with
    | some r => exact ⟨r, by simp [resolveConflict, hlook, hinf]⟩
    | none =>
      refine ⟨{ conflictsIdentified := ["Resolution failed"]
                resolution :=
                  match cands with
                  | c :: _ => ResolutionVal.payload c
                  | [] => ResolutionVal.emptyObj
                confidenceScore := 1/2
                reasoning := "Automatic fallback due to resolution error" }, ?_⟩
      cases cands with
      | nil => simp only [resolveConflict, hlook, hinf]
      | cons c cs => simp only [resolveConflict, hlook, hinf]
  · intro st requester caps hreg
    obtain ⟨acc', hacc'⟩ := collabScan_ok { st with nextId := st.nextId + 1 }
      requester hreg caps []
    cases hacc'' : acc' with
    | nil =>
      refine ⟨"No suitable agents available for collaboration",
        { st with nextId := st.nextId + 1 }, ?_⟩
      rw [hacc''] at hacc'
      simp only [requestCollaboration, hacc']
    | cons p ps =>
      rw [hacc''] at hacc'
      refine ⟨"collab" ++ toString st.nextId,
        { st with
            nextId := st.nextId + 1,
            activeCollaborations := st.activeCollaborations + 1,
            messagesCount := st.messagesCount + (p :: ps).length }, ?_⟩
      simp only [requestCollaboration, hacc']

/-- A fully-formed submit payload with one required capability. -/
def fullData : TaskData :=
  { title := some "t"
    description := some "d"
    taskType := none
    requiredCapabilities := some ["c"]
    priority := none
    parentTaskId := none }

/-- Claim C6, witness for the amended theorem: on the empty state, a
well-formed atomic submission, a conflict resolution on a known id, and a
collaboration request all return structured ok results. -/
theorem claim6_amended_witness :
    (∃ tid st', submitTask envFail 1 fullData emptyState = Res.ok tid st')
    ∧ (∃ r, resolveConflict envFail "t0" []
        { emptyState with tasks := [("t0", t0)] } =
        Res.ok r { emptyState with tasks := [("t0", t0)] })
    ∧ (∃ r st', requestCollaboration "A" ["c"] emptyState = Res.ok r st') := by
  have h := claim6_amended envFail
  refine ⟨?_, ?_, ?_⟩
  · exact h.1 fullData emptyState 1 "t" "d" ["c"] rfl rfl rfl (by decide) rfl rfl
      (fun qid hq => absurd hq (by simp [emptyState]))
  · exact h.2.1 { emptyState with tasks := [("t0", t0)] } "t0" t0 [] rfl
  · exact h.2.2 emptyState "A" ["c"]
      (fun cap ids hg => by simp [emptyState, getAssoc] at hg)

/-! ### Claim C4: the task status transition relation -/

/-- The status edges the original claim allows: the linear lifecycle plus
the retry edge. -/
def claimedEdge (a b : TaskStatus) : Bool :=
  decide ((a, b) = (TaskStatus.pending, TaskStatus.assigned)
    ∨ (a, b) = (TaskStatus.assigned, TaskStatus.inProgress)
    ∨ (a, b) = (TaskStatus.inProgress, TaskStatus.completed)
    ∨ (a, b) = (TaskStatus.inProgress, TaskStatus.failed)
    ∨ (a, b) = (TaskStatus.failed, TaskStatus.pending))

/-- The edges the code actually takes: the claimed ones plus the direct
Pending to InProgress step a decomposed parent performs. -/
def amendedEdge (a b : TaskStatus) : Bool :=
  claimedEdge a b || decide ((a, b) = (TaskStatus.pending, TaskStatus.inProgress))

/-- Assignment-only edges (what queue draining writes). -/
def edgePA : TaskStatus → TaskStatus → Bool := fun a b =>
  decide (a = TaskStatus.pending ∧ b = TaskStatus.assigned)

/-- The ghost transition log of st1 extends that of st only by entries
along the given edge set. -/
def logsOnly (st st' : EngineState) (edge : TaskStatus → TaskStatus → Bool) : Prop :=
  ∃ d, st'.transitions = st.transitions ++ d ∧ ∀ tr ∈ d, edge tr.2.1 tr.2.2 = true

theorem logsOnly_of_eq {st st' : EngineState} {e : TaskStatus → TaskStatus → Bool}
    (h : st'.transitions = st.transitions) : logsOnly st st' e :=
  ⟨[], by simp [h], by simp⟩

theorem logsOnly_trans {st st1 st2 : EngineState} {e : TaskStatus → TaskStatus → Bool}
    (h1 : logsOnly st st1 e) (h2 : logsOnly st1 st2 e) : logsOnly st st2 e := by
  obtain ⟨d1, hd1, ha1⟩ := h1
  obtain ⟨d2, hd2, ha2⟩ := h2
  refine ⟨d1 ++ d2, by rw [hd2, hd1, List.append_assoc], ?_⟩
  intro tr htr
  rcases List.mem_append.mp htr with h | h
  · exact ha1 tr h
  · exact ha2 tr h

theorem logsOnly_mono {st st' : EngineState} {e e' : TaskStatus → TaskStatus → Bool}
    (hmono : ∀ a b, e a b = true → e' a b = true)
    (h : logsOnly st st' e) : logsOnly st st' e' := by
  obtain ⟨d, hd, ha⟩ := h
  exact ⟨d, hd, fun tr htr => hmono _ _ (ha tr htr)⟩

theorem edgePA_le_amended : ∀ a b, edgePA a b = true → amendedEdge a b = true := by
  intro a b h
  simp only [edgePA, decide_eq_true_eq] at h
  obtain ⟨ha, hb⟩ := h
  subst ha
  subst hb
  decide

theorem logsOnly_writeTask (st : EngineState) (tid : String) (old new : TaskRec)
    (e : TaskStatus → TaskStatus → Bool) (h : e old.status new.status = true) :
    logsOnly st (writeTask st tid old new) e := by
  refine ⟨[(tid, old.status, new.status)], ?_, ?_⟩
  · simp [writeTask, updTask]
  · intro tr htr
    simp only [List.mem_singleton] at htr
    rw [htr]
    exact h

theorem assignTask_logsPA (tid aid : String) (st : EngineState) (t : TaskRec)
    (hlook : lookupTask st tid = some t) (hs : t.status = TaskStatus.pending) :
    logsOnly st ((assignTask tid aid st).state) edgePA := by
  cases hag : lookupAgent st aid with
  | none => exact logsOnly_of_eq (by simp [assignTask, hlook, hag, Res.state])
  | some a =>
    have heq : (assignTask tid aid st).state =
        { writeTask st tid t
            { t with
                assignedAgentId := some aid,
                assignedAt := some st.clock,
                status := TaskStatus.assigned } with
            clock := st.clock + 1 } := by
      simp [assignTask, hlook, hag, Res.state]
    rw [heq]
    refine ⟨[(tid, t.status, TaskStatus.assigned)], ?_, ?_⟩
    · simp [writeTask, updTask]
    · intro tr htr
      simp only [List.mem_singleton] at htr
      rw [htr, hs]
      show edgePA TaskStatus.pending TaskStatus.assigned = true
      decide

theorem processQueueGo_logsPA : ∀ (fuel : Nat) (st : EngineState),
    logsOnly st ((processQueueGo fuel st).state) edgePA := by
  intro fuel
  induction fuel with
  | zero => intro st; exact logsOnly_of_eq rfl
  | succ n ih =>
    intro st
    cases hq : st.taskQueue with
    | nil => exact logsOnly_of_eq (by simp [processQueueGo, hq, Res.state])
    | cons tid rest =>
      simp only [processQueueGo, hq]
      cases h1 : lookupTask { st with taskQueue := rest } tid with
      | none => exact logsOnly_of_eq (by simp [Res.state])
      | some t =>
        by_cases hs : t.status = TaskStatus.pending
        · simp only [if_pos hs]
          cases h2 : findBestAgent ({ st with taskQueue := rest } : EngineState).agents
              t.requiredCapabilities with
          | error e => exact logsOnly_of_eq (by simp [Res.state])
          | ok best =>
            cases best with
            | none => exact logsOnly_of_eq (by simp [Res.state])
            | some aid =>
              have hassign := assignTask_logsPA tid aid { st with taskQueue := rest }
                t h1 hs
              cases ha : assignTask tid aid { st with taskQueue := rest } with
              | ok v st2 =>
                rw [ha] at hassign
                simp only [ha]
                exact logsOnly_trans (logsOnly_trans (logsOnly_of_eq rfl) hassign) (ih st2)
              | exn e st2 =>
                rw [ha] at hassign
                simp only [ha]
                exact logsOnly_trans (logsOnly_of_eq rfl) hassign
        · simp only [if_neg hs]
          exact logsOnly_trans (logsOnly_of_eq rfl) (ih { st with taskQueue := rest })

theorem processTaskQueue_logsPA (st : EngineState) :
    logsOnly st ((processTaskQueue st).state) edgePA :=
  processQueueGo_logsPA st.taskQueue.length st

theorem checkParentCompletion_logs (env : Env) (pid : String) (st : EngineState)
    (hpre : ∀ p, lookupTask st pid = some p → p.status = TaskStatus.inProgress) :
    logsOnly st ((checkParentCompletion env pid st).state) amendedEdge := by
  cases h1 : lookupTask st pid with
  | none => exact logsOnly_of_eq (by simp [checkParentCompletion, h1, Res.state])
  | some p =>
    cases h2 : scanChildren st p.subtasks with
    | error e => exact logsOnly_of_eq (by simp [checkParentCompletion, h1, h2, Res.state])
    | ok o =>
      cases o with
      | none => exact logsOnly_of_eq (by simp [checkParentCompletion, h1, h2, Res.state])
      | some results =>
        have heq : (checkParentCompletion env pid st).state =
            writeTask { st with synthCalls := st.synthCalls + 1, clock := st.clock + 1 }
              pid p
              { p with
                  status := TaskStatus.completed
                  result := some (match env.synthesize p.title p.description results with
                                  | some c => c
                                  | none => fallbackSynth results)
                  completedAt := some st.clock
                  progressPercentage := 100 } := by
          simp [checkParentCompletion, h1, h2, Res.state]
        rw [heq]
        refine ⟨[(pid, p.status, TaskStatus.completed)], ?_, ?_⟩
        · simp [writeTask, updTask]
        · intro tr htr
          simp only [List.mem_singleton] at htr
          rw [htr, hpre p h1]
          show amendedEdge TaskStatus.inProgress TaskStatus.completed = true
          decide

theorem execStart_logs (tid aid : String) (st : EngineState) (t : TaskRec)
    (hlook : lookupTask st tid = some t) (hs : t.status = TaskStatus.assigned) :
    logsOnly st ((execStart tid aid st).state) amendedEdge := by
  cases hag : lookupAgent st aid with
  | none => exact logsOnly_of_eq (by simp [execStart, hlook, hag, Res.state])
  | some a =>
    refine ⟨[(tid, t.status, TaskStatus.inProgress)], ?_, ?_⟩
    · simp [execStart, hlook, hag, Res.state, updAgent, writeTask, updTask]
    · intro tr htr
      simp only [List.mem_singleton] at htr
      rw [htr, hs]
      show amendedEdge TaskStatus.assigned TaskStatus.inProgress = true
      decide

theorem handleTaskFailure_logs (tid : String) (st : EngineState) (t : TaskRec)
    (hlook : lookupTask st tid = some t) (hs : t.status = TaskStatus.failed) :
    (¬ t.retryCount < maxRetries → handleTaskFailure tid st = Res.ok () st)
    ∧ (t.retryCount < maxRetries → ∃ d,
        ((handleTaskFailure tid st).state).transitions =
          st.transitions ++ (tid, TaskStatus.failed, TaskStatus.pending) :: d
        ∧ ∀ tr ∈ d, edgePA tr.2.1 tr.2.2 = true) := by
  constructor
  · intro hr
    simp [handleTaskFailure, hlook, if_neg hr]
  · intro hr
    have heq : (handleTaskFailure tid st).state =
        ((processTaskQueue { (writeTask st tid t
          { t with
              retryCount := t.retryCount + 1
              status := TaskStatus.pending
              assignedAgentId := none }) with
          taskQueue := (writeTask st tid t
            { t with
                retryCount := t.retryCount + 1
                status := TaskStatus.pending
                assignedAgentId := none }).taskQueue ++ [tid] }).state) := by
      simp [handleTaskFailure, hlook, if_pos hr]
    obtain ⟨d, hd, hall⟩ := processTaskQueue_logsPA
      { (writeTask st tid t
          { t with
              retryCount := t.retryCount + 1
              status := TaskStatus.pending
              assignedAgentId := none }) with
        taskQueue := (writeTask st tid t
          { t with
              retryCount := t.retryCount + 1
              status := TaskStatus.pending
              assignedAgentId := none }).taskQueue ++ [tid] }
    refine ⟨d, ?_, hall⟩
    rw [heq, hd]
    simp [writeTask, updTask, hs]

theorem handleTaskFailure_logsAmended (tid : String) (st : EngineState) (t : TaskRec)
    (hlook : lookupTask st tid = some t) (hs : t.status = TaskStatus.failed) :
    logsOnly st ((handleTaskFailure tid st).state) amendedEdge := by
  by_cases hr : t.retryCount < maxRetries
  · obtain ⟨d, hd, hall⟩ := (handleTaskFailure_logs tid st t hlook hs).2 hr
    refine ⟨(tid, TaskStatus.failed, TaskStatus.pending) :: d, hd, ?_⟩
    intro tr htr
    rcases List.mem_cons.mp htr with htr | htr
    · rw [htr]
      show amendedEdge TaskStatus.failed TaskStatus.pending = true
      decide
    · exact edgePA_le_amended _ _ (hall tr htr)
  · rw [(handleTaskFailure_logs tid st t hlook hs).1 hr]
    exact logsOnly_of_eq rfl

theorem execFinish_logs (env : Env) (tid aid : String) (outcome : AgentOutcome)
    (fault : Option String) (st : EngineState) (t : TaskRec)
    (hlook : lookupTask st tid = some t) (hs : t.status = TaskStatus.inProgress)
    (hparent : ∀ pid, t.parentTaskId = some pid → pid ≠ tid ∧
      ∀ p, lookupTask st pid = some p → p.status = TaskStatus.inProgress) :
    logsOnly st ((execFinish env tid aid outcome fault st).state) amendedEdge := by
  cases hag : lookupAgent st aid with
  | none => exact logsOnly_of_eq (by simp [execFinish, hlook, hag, Res.state])
  | some a =>
    by_cases hmem : tid ∈ a.currentTasks
    · simp only [execFinish, hlook, hag, if_pos hmem]
      cases fault with
      | some msg =>
        refine ⟨[(tid, t.status, TaskStatus.failed)], ?_, ?_⟩
        · simp [Res.state, writeTask, updTask, updAgent]
        · intro tr htr
          simp only [List.mem_singleton] at htr
          rw [htr, hs]
          show amendedEdge TaskStatus.inProgress TaskStatus.failed = true
          decide
      | none =>
        cases outcome with
        | success payload dur =>
          have hstep1 : logsOnly st
              ({ writeTask (updAgent st aid (agentFinish tid
                    (AgentOutcome.success payload dur) a)) tid t
                  { t with
                      status := TaskStatus.completed
                      result := some payload
                      completedAt := some st.clock
                      progressPercentage := 100 } with
                completedTasks := (updAgent st aid (agentFinish tid
                    (AgentOutcome.success payload dur) a)).completedTasks + 1,
                clock := st.clock + 1 } :
                EngineState) amendedEdge := by
            refine ⟨[(tid, t.status, TaskStatus.completed)], ?_, ?_⟩
            · simp [writeTask, updTask, updAgent]
            · intro tr htr
              simp only [List.mem_singleton] at htr
              rw [htr, hs]
              show amendedEdge TaskStatus.inProgress TaskStatus.completed = true
              decide
          cases hp : t.parentTaskId with
          | none => simpa [hp, Res.state] using hstep1
          | some pid =>
            simp only [hp]
            refine logsOnly_trans hstep1 (checkParentCompletion_logs env pid _ ?_)
            intro p hp2
            obtain ⟨hne, himp⟩ := hparent pid hp
            refine himp p ?_
            rw [← hp2]
            simp only [lookupTask, writeTask, updTask, updAgent]
            exact (getAssoc_updAssoc_ne _ _ _ _ hne).symm
        | failure err dur =>
          have hlook2 : lookupTask
              ({ writeTask (updAgent st aid (agentFinish tid
                    (AgentOutcome.failure err dur) a)) tid t
                  { t with
                      status := TaskStatus.failed,
                      errorMessage := some err,
                      completedAt := some st.clock } with
                failedTasks := (updAgent st aid (agentFinish tid
                    (AgentOutcome.failure err dur) a)).failedTasks + 1,
                clock := st.clock + 1 } :
                EngineState) tid =
              some { t with
                      status := TaskStatus.failed,
                      errorMessage := some err,
                      completedAt := some st.clock } := by
            simp only [lookupTask, writeTask, updTask, updAgent]
            exact getAssoc_updAssoc_same _ _ t _ hlook
          have hstep1 : logsOnly st
              ({ writeTask (updAgent st aid (agentFinish tid
                    (AgentOutcome.failure err dur) a)) tid t
                  { t with
                      status := TaskStatus.failed,
                      errorMessage := some err,
                      completedAt := some st.clock } with
                failedTasks := (updAgent st aid (agentFinish tid
                    (AgentOutcome.failure err dur) a)).failedTasks + 1,
                clock := st.clock + 1 } :
                EngineState) amendedEdge := by
            refine ⟨[(tid, t.status, TaskStatus.failed)], ?_, ?_⟩
            · simp [writeTask, updTask, updAgent]
            · intro tr htr
              simp only [List.mem_singleton] at htr
              rw [htr, hs]
              show amendedEdge TaskStatus.inProgress TaskStatus.failed = true
              decide
          exact logsOnly_trans hstep1
            (handleTaskFailure_logsAmended tid _ _ hlook2 rfl)
    · simp only [execFinish, hlook, hag, if_neg hmem]
      refine ⟨[(tid, t.status, TaskStatus.failed)], ?_, ?_⟩
      · simp [Res.state, writeTask, updTask, updAgent]
      · intro tr htr
        simp only [List.mem_singleton] at htr
        rw [htr, hs]
        show amendedEdge TaskStatus.inProgress TaskStatus.failed = true
        decide

/-! Machinery for the status writes performed by submission and
decomposition.  freshIdNum never repeats an id, so the live engine
satisfies an id-freshness invariant; under it, a whole submission (with
arbitrary decomposition responses and arbitrarily nested subtask
submissions) only writes statuses along the amended edges, and only moves
a pre-existing task from Pending to Assigned. -/

theorem freshIdNum_length (k : Nat) : (freshIdNum k).length = 4 + k := by
  simp [freshIdNum, String.length_append]
  rfl

theorem freshIdNum_ne {k j : Nat} (h : k ≠ j) : freshIdNum k ≠ freshIdNum j := by
  intro he
  have h2 := congrArg String.length he
  rw [freshIdNum_length, freshIdNum_length] at h2
  omega

theorem freshIdNum_ne_short (k : Nat) (s : String) (h : s.length < 4) :
    freshIdNum k ≠ s := by
  intro he
  rw [← he, freshIdNum_length] at h
  omega

theorem getAssoc_eq_none_iff {α : Type} (l : List (String × α)) (k : String) :
    getAssoc l k = none ↔ ∀ p ∈ l, p.1 ≠ k := by
  simp [getAssoc, List.find?_eq_none]

theorem getAssoc_none_updAssoc {α : Type} (l : List (String × α)) (k k' : String)
    (v : α) (h : getAssoc l k' = none) : getAssoc (updAssoc l k v) k' = none := by
  rw [getAssoc_eq_none_iff] at h ⊢
  intro p hp
  simp only [updAssoc, List.mem_map] at hp
  obtain ⟨q, hq, hpq⟩ := hp
  by_cases hqk : q.1 = k
  · rw [if_pos hqk] at hpq
    rw [← hpq]
    intro hk
    exact h q hq (hqk.trans hk)
  · rw [if_neg hqk] at hpq
    rw [← hpq]
    exact h q hq

theorem getAssoc_singleton_same {α : Type} (k : String) (v : α) :
    getAssoc [(k, v)] k = some v := by
  simp [getAssoc, List.find?]

theorem getAssoc_singleton_ne {α : Type} (k1 k2 : String) (v : α) (h : k1 ≠ k2) :
    getAssoc [(k1, v)] k2 = none := by
  simp [getAssoc, List.find?, h]

/-- Id freshness: every id the generator can still mint is absent from
the task table.  Normal operation establishes this, since ids enter the
table only by being minted. -/
def IdsFresh (st : EngineState) : Prop :=
  ∀ k, st.nextId ≤ k → getAssoc st.tasks (freshIdNum k) = none

/-- During a submission, every pre-existing task (with the possible
exception of the one id in ex, the decomposition target) keeps its status
or moves Pending to Assigned (by the queue drains the submission
triggers). -/
def TasksMono (ex : Option String) (st st' : EngineState) : Prop :=
  ∀ qid t, lookupTask st qid = some t → some qid ≠ ex →
    ∃ t', lookupTask st' qid = some t' ∧
      (t'.status = t.status ∨
        (t.status = TaskStatus.pending ∧ t'.status = TaskStatus.assigned))

/-- The invariant package a submission-reachable step preserves: only
amended edges are logged, id freshness is maintained, and pre-existing
task statuses move at most Pending to Assigned (except possibly at ex). -/
def StepOK (ex : Option String) (st st' : EngineState) : Prop :=
  logsOnly st st' amendedEdge ∧ IdsFresh st' ∧ TasksMono ex st st'

theorem stepOK_of_parts {st st' : EngineState} (hf : IdsFresh st)
    (hq : st'.tasks = st.tasks) (hn : st'.nextId = st.nextId)
    (ht : st'.transitions = st.transitions) : StepOK none st st' := by
  refine ⟨logsOnly_of_eq ht, ?_, ?_⟩
  · intro k hk
    rw [hq]
    exact hf k (hn ▸ hk)
  · intro qid t h _
    refine ⟨t, ?_, Or.inl rfl⟩
    simp only [lookupTask] at h ⊢
    rw [hq]
    exact h

theorem stepOK_trans {ex : Option String} {st st1 st2 : EngineState}
    (h1 : StepOK none st st1) (h2 : StepOK ex st1 st2) : StepOK ex st st2 := by
  refine ⟨logsOnly_trans h1.1 h2.1, h2.2.1, ?_⟩
  intro qid t h hex
  obtain ⟨t1, hl1, hc1⟩ := h1.2.2 qid t h (by simp)
  obtain ⟨t2, hl2, hc2⟩ := h2.2.2 qid t1 hl1 hex
  refine ⟨t2, hl2, ?_⟩
  rcases hc1 with hc1 | hc1
  · rcases hc2 with hc2 | hc2
    · exact Or.inl (hc2.trans hc1)
    · exact Or.inr ⟨hc1.symm.trans hc2.1, hc2.2⟩
  · rcases hc2 with hc2 | hc2
    · exact Or.inr ⟨hc1.1, hc2.trans hc1.2⟩
    · obtain ⟨hp, _⟩ := hc2
      rw [hc1.2] at hp
      exact absurd hp (by decide)

theorem tasksMono_exc {ex : Option String} {st st' : EngineState}
    (h : TasksMono none st st') : TasksMono ex st st' :=
  fun qid t hq _ => h qid t hq (by simp)

theorem stepOK_exc {ex : Option String} {st st' : EngineState}
    (h : StepOK none st st') : StepOK ex st st' :=
  ⟨h.1, h.2.1, tasksMono_exc h.2.2⟩

theorem tasksMono_weaken_of_absent {tid : String} {st st' : EngineState}
    (habs : lookupTask st tid = none)
    (h : TasksMono (some tid) st st') : TasksMono none st st' := by
  intro qid t hq _
  refine h qid t hq ?_
  intro he
  rw [Option.some.inj he] at hq
  rw [habs] at hq
  cases hq

theorem assignTask_stepOK (tid aid : String) (st : EngineState) (t : TaskRec)
    (hlook : lookupTask st tid = some t) (hs : t.status = TaskStatus.pending)
    (hf : IdsFresh st) :
    StepOK none st ((assignTask tid aid st).state) := by
  cases hag : lookupAgent st aid with
  | none =>
    have heq : (assignTask tid aid st).state = st := by
      simp [assignTask, hlook, hag, Res.state]
    rw [heq]
    exact stepOK_of_parts hf rfl rfl rfl
  | some a =>
    have heq : (assignTask tid aid st).state =
        { writeTask st tid t
            { t with
                assignedAgentId := some aid,
                assignedAt := some st.clock,
                status := TaskStatus.assigned } with
            clock := st.clock + 1 } := by
      simp [assignTask, hlook, hag, Res.state]
    rw [heq]
    refine ⟨⟨[(tid, t.status, TaskStatus.assigned)],
      by simp [writeTask, updTask], ?_⟩, ?_, ?_⟩
    · intro tr htr
      simp only [List.mem_singleton] at htr
      rw [htr, hs]
      show amendedEdge TaskStatus.pending TaskStatus.assigned = true
      decide
    · intro k hk
      simp only [writeTask, updTask]
      exact getAssoc_none_updAssoc _ _ _ _ (hf k hk)
    · intro qid tq hq _
      by_cases hqt : qid = tid
      · subst hqt
        have htq : t = tq := Option.some.inj (hlook.symm.trans hq)
        refine ⟨{ t with
            assignedAgentId := some aid,
            assignedAt := some st.clock,
            status := TaskStatus.assigned }, ?_, ?_⟩
        · simp only [lookupTask, writeTask, updTask]
          exact getAssoc_updAssoc_same _ _ t _ hlook
        · exact Or.inr ⟨by rw [← htq]; exact hs, rfl⟩
      · refine ⟨tq, ?_, Or.inl rfl⟩
        simp only [lookupTask, writeTask, updTask] at hq ⊢
        exact (getAssoc_updAssoc_ne _ _ _ _ hqt).trans hq

theorem processQueueGo_stepOK : ∀ (fuel : Nat) (st : EngineState), IdsFresh st →
    StepOK none st ((processQueueGo fuel st).state) := by
  intro fuel
  induction fuel with
  | zero => intro st hf; exact stepOK_of_parts hf rfl rfl rfl
  | succ n ih =>
    intro st hf
    cases hq : st.taskQueue with
    | nil =>
      simp only [processQueueGo, hq]
      exact stepOK_of_parts hf rfl rfl rfl
    | cons tid rest =>
      simp only [processQueueGo, hq]
      have hf1 : IdsFresh ({ st with taskQueue := rest } : EngineState) := hf
      cases h1 : lookupTask ({ st with taskQueue := rest } : EngineState) tid with
      | none => exact stepOK_of_parts hf rfl rfl rfl
      | some t =>
        by_cases hs : t.status = TaskStatus.pending
        · simp only [if_pos hs]
          cases h2 : findBestAgent ({ st with taskQueue := rest } : EngineState).agents
              t.requiredCapabilities with
          | error e => exact stepOK_of_parts hf rfl rfl rfl
          | ok best =>
            cases best with
            | none => exact stepOK_of_parts hf rfl rfl rfl
            | some aid =>
              have hstep := assignTask_stepOK tid aid { st with taskQueue := rest }
                t h1 hs hf1
              cases ha : assignTask tid aid { st with taskQueue := rest } with
              | ok v st2 =>
                rw [ha] at hstep
                simp only [Res.state] at hstep
                simp only [ha]
                exact stepOK_trans (stepOK_of_parts hf rfl rfl rfl)
                  (stepOK_trans hstep (ih st2 hstep.2.1))
              | exn e st2 =>
                rw [ha] at hstep
                simp only [Res.state] at hstep
                simp only [ha]
                exact stepOK_trans (stepOK_of_parts hf rfl rfl rfl) hstep
        · simp only [if_neg hs]
          exact stepOK_trans (stepOK_of_parts hf rfl rfl rfl) (ih _ hf1)

theorem processTaskQueue_stepOK (st : EngineState) (hf : IdsFresh st) :
    StepOK none st ((processTaskQueue st).state) :=
  processQueueGo_stepOK st.taskQueue.length st hf

theorem submitSubtasks_stepOK (submit : TaskData → EngineState → Res String)
    (hsub : ∀ d s, IdsFresh s → StepOK none s ((submit d s).state))
    (parentId parentType : String) :
    ∀ (sds : List SubtaskData) (st : EngineState), IdsFresh st →
      StepOK none st ((submitSubtasks submit parentId parentType sds st).state) := by
  intro sds
  induction sds with
  | nil => intro st hf; exact stepOK_of_parts hf rfl rfl rfl
  | cons sd rest ih =>
    intro st hf
    have h1 := hsub (subtaskToData parentId parentType sd) st hf
    cases hsm : submit (subtaskToData parentId parentType sd) st with
    | exn e st1 =>
      rw [hsm] at h1
      simp only [Res.state] at h1
      simp only [submitSubtasks, hsm]
      exact h1
    | ok sid st1 =>
      rw [hsm] at h1
      simp only [Res.state] at h1
      simp only [submitSubtasks, hsm]
      cases hlp : lookupTask st1 parentId with
      | none => exact h1
      | some p =>
        have h2 : StepOK none st1
            (updTask st1 parentId { p with subtasks := p.subtasks ++ [sid] }) := by
          refine ⟨logsOnly_of_eq (by simp [updTask]), ?_, ?_⟩
          · intro k hk
            simp only [updTask]
            exact getAssoc_none_updAssoc _ _ _ _ (h1.2.1 k hk)
          · intro qid tq hq _
            by_cases hqp : qid = parentId
            · subst hqp
              have htq : tq = p := Option.some.inj (hq.symm.trans hlp)
              refine ⟨{ p with subtasks := p.subtasks ++ [sid] }, ?_, Or.inl ?_⟩
              · simp only [lookupTask, updTask]
                exact getAssoc_updAssoc_same _ _ p _ hlp
              · rw [htq]
            · refine ⟨tq, ?_, Or.inl rfl⟩
              simp only [lookupTask, updTask] at hq ⊢
              exact (getAssoc_updAssoc_ne _ _ _ _ hqp).trans hq
        exact stepOK_trans h1 (stepOK_trans h2 (ih _ h2.2.1))

theorem decomposeAux_stepOK (submit : TaskData → EngineState → Res String)
    (hsub : ∀ d s, IdsFresh s → StepOK none s ((submit d s).state))
    (env : Env) (tid : String) (st : EngineState) (hf : IdsFresh st)
    (hpa : ∀ t, lookupTask st tid = some t →
      t.status = TaskStatus.pending ∨ t.status = TaskStatus.assigned) :
    StepOK (some tid) st ((decomposeAux submit env tid st).state) := by
  cases h1 : lookupTask st tid with
  | none =>
    simp only [decomposeAux, h1]
    exact stepOK_exc (stepOK_of_parts hf rfl rfl rfl)
  | some t =>
    cases h2 : env.decomposeResp t with
    | none =>
      simp only [decomposeAux, h1, h2]
      exact stepOK_exc (stepOK_trans (stepOK_of_parts hf rfl rfl rfl)
        (processTaskQueue_stepOK _ hf))
    | some sds =>
      have hloop := submitSubtasks_stepOK submit hsub tid t.taskType sds st hf
      cases h3 : submitSubtasks submit tid t.taskType sds st with
      | exn e st1 =>
        rw [h3] at hloop
        simp only [Res.state] at hloop
        simp only [decomposeAux, h1, h2, h3]
        exact stepOK_exc (stepOK_trans hloop (stepOK_trans
          (stepOK_of_parts hloop.2.1 rfl rfl rfl)
          (processTaskQueue_stepOK _ hloop.2.1)))
      | ok v st1 =>
        rw [h3] at hloop
        simp only [Res.state] at hloop
        cases h4 : lookupTask st1 tid with
        | none =>
          simp only [decomposeAux, h1, h2, h3, h4]
          exact stepOK_exc hloop
        | some t1 =>
          simp only [decomposeAux, h1, h2, h3, h4]
          obtain ⟨t1x, hl1x, hc⟩ := hloop.2.2 tid t h1 (by simp)
          have ht1 : t1x = t1 := Option.some.inj (hl1x.symm.trans h4)
          rw [ht1] at hc
          have hedge : amendedEdge t1.status TaskStatus.inProgress = true := by
            rcases hc with hc | hc
            · rw [hc]
              rcases hpa t h1 with hp | hp
              · rw [hp]; decide
              · rw [hp]; decide
            · rw [hc.2]; decide
          refine stepOK_trans hloop
            ⟨logsOnly_writeTask st1 tid t1 _ amendedEdge hedge, ?_, ?_⟩
          · intro k hk
            simp only [Res.state, writeTask, updTask]
            exact getAssoc_none_updAssoc _ _ _ _ (hloop.2.1 k hk)
          · intro qid tq hq hex
            have hqt : qid ≠ tid := fun he => hex (by rw [he])
            refine ⟨tq, ?_, Or.inl rfl⟩
            simp only [lookupTask, Res.state, writeTask, updTask] at hq ⊢
            exact (getAssoc_updAssoc_ne _ _ _ _ hqt).trans hq

theorem submitCore_stepOK (env : Env)
    (childSubmit : TaskData → EngineState → Res String)
    (hsub : ∀ d s, IdsFresh s → StepOK none s ((childSubmit d s).state))
    (data : TaskData) (st : EngineState) (hf : IdsFresh st) :
    StepOK none st ((submitCore env childSubmit data st).state) := by
  cases ht : data.title with
  | none =>
    cases hd : data.description <;> cases hc : data.requiredCapabilities <;>
      (simp only [submitCore, ht]; exact stepOK_of_parts hf rfl rfl rfl)
  | some title =>
    cases hd : data.description with
    | none =>
      cases hc : data.requiredCapabilities <;>
        (simp only [submitCore, ht, hd]; exact stepOK_of_parts hf rfl rfl rfl)
    | some desc =>
      cases hc : data.requiredCapabilities with
      | none =>
        simp only [submitCore, ht, hd, hc]
        exact stepOK_of_parts hf rfl rfl rfl
      | some caps =>
        simp only [submitCore, ht, hd, hc]
        have hfreshg : getAssoc st.tasks (freshTaskId st) = none :=
          hf st.nextId (Nat.le_refl _)
        have hst1 : StepOK none st ({ st with
            nextId := st.nextId + 1,
            clock := st.clock + 1,
            tasks := st.tasks ++ [(freshTaskId st, mkTaskRec data title desc caps st.clock)],
            totalTasks := st.totalTasks + 1 } : EngineState) := by
          refine ⟨logsOnly_of_eq rfl, ?_, ?_⟩
          · intro k hk
            have hk1 : st.nextId + 1 ≤ k := hk
            show getAssoc (st.tasks ++
              [(freshTaskId st, mkTaskRec data title desc caps st.clock)])
              (freshIdNum k) = none
            rw [getAssoc_append_right _ _ _ (hf k (Nat.le_of_succ_le hk1))]
            refine getAssoc_singleton_ne (freshTaskId st) (freshIdNum k) _ ?_
            show freshIdNum st.nextId ≠ freshIdNum k
            exact freshIdNum_ne (by omega)
          · intro qid tq hq _
            refine ⟨tq, ?_, Or.inl rfl⟩
            simp only [lookupTask] at hq ⊢
            exact getAssoc_append_left _ _ _ _ hq
        have hlookfresh : lookupTask ({ st with
            nextId := st.nextId + 1,
            clock := st.clock + 1,
            tasks := st.tasks ++ [(freshTaskId st, mkTaskRec data title desc caps st.clock)],
            totalTasks := st.totalTasks + 1 } : EngineState) (freshTaskId st) =
            some (mkTaskRec data title desc caps st.clock) := by
          simp only [lookupTask]
          rw [getAssoc_append_right _ _ _ hfreshg]
          exact getAssoc_singleton_same _ _
        by_cases hn : needsDecomposition env (mkTaskRec data title desc caps st.clock)
        · simp only [if_pos hn]
          have hda := decomposeAux_stepOK childSubmit hsub env (freshTaskId st)
            { st with
              nextId := st.nextId + 1,
              clock := st.clock + 1,
              tasks := st.tasks ++ [(freshTaskId st, mkTaskRec data title desc caps st.clock)],
              totalTasks := st.totalTasks + 1 }
            hst1.2.1
            (by
              intro t2 ht2
              rw [hlookfresh] at ht2
              rw [← Option.some.inj ht2]
              left
              rfl)
          have hcomb := stepOK_trans hst1 hda
          have hnone : StepOK none st ((decomposeAux childSubmit env (freshTaskId st)
              { st with
                nextId := st.nextId + 1,
                clock := st.clock + 1,
                tasks := st.tasks ++ [(freshTaskId st, mkTaskRec data title desc caps st.clock)],
                totalTasks := st.totalTasks + 1 }).state) :=
            ⟨hcomb.1, hcomb.2.1, tasksMono_weaken_of_absent hfreshg hcomb.2.2⟩
          cases hda' : decomposeAux childSubmit env (freshTaskId st)
              { st with
                nextId := st.nextId + 1,
                clock := st.clock + 1,
                tasks := st.tasks ++ [(freshTaskId st, mkTaskRec data title desc caps st.clock)],
                totalTasks := st.totalTasks + 1 } with
          | ok v st2 =>
            rw [hda'] at hnone
            simp only [Res.state] at hnone
            exact hnone
          | exn e st2 =>
            rw [hda'] at hnone
            simp only [Res.state] at hnone
            exact hnone
        · simp only [if_neg hn]
          have hpq := processTaskQueue_stepOK
            { st with
              nextId := st.nextId + 1,
              clock := st.clock + 1,
              tasks := st.tasks ++ [(freshTaskId st, mkTaskRec data title desc caps st.clock)],
              totalTasks := st.totalTasks + 1,
              taskQueue := st.taskQueue ++ [freshTaskId st] } hst1.2.1
          have hcomb := stepOK_trans hst1 (stepOK_trans
            (stepOK_of_parts hst1.2.1 rfl rfl rfl) hpq)
          cases hpq' : processTaskQueue
              { st with
                nextId := st.nextId + 1,
                clock := st.clock + 1,
                tasks := st.tasks ++ [(freshTaskId st, mkTaskRec data title desc caps st.clock)],
                totalTasks := st.totalTasks + 1,
                taskQueue := st.taskQueue ++ [freshTaskId st] } with
          | ok v st2 =>
            rw [hpq'] at hcomb
            simp only [Res.state] at hcomb
            exact hcomb
          | exn e st2 =>
            rw [hpq'] at hcomb
            simp only [Res.state] at hcomb
            exact hcomb

theorem submitTask_stepOK (env : Env) : ∀ (fuel : Nat) (data : TaskData)
    (st : EngineState), IdsFresh st →
    StepOK none st ((submitTask env fuel data st).state) := by
  intro fuel
  induction fuel with
  | zero =>
    intro data st hf
    exact submitCore_stepOK env (fun _ s => Res.exn "RecursionError" s)
      (fun d s hfs => stepOK_of_parts hfs rfl rfl rfl) data st hf
  | succ n ih =>
    intro data st hf
    exact submitCore_stepOK env (submitTask env n)
      (fun d s hfs => ih d s hfs) data st hf

theorem decomposeTask_stepOK (env : Env) (fuel : Nat) (tid : String)
    (st : EngineState) (hf : IdsFresh st)
    (hpa : ∀ t, lookupTask st tid = some t →
      t.status = TaskStatus.pending ∨ t.status = TaskStatus.assigned) :
    StepOK (some tid) st ((decomposeTask env fuel tid st).state) :=
  decomposeAux_stepOK (submitTask env fuel)
    (fun d s hfs => submitTask_stepOK env fuel d s hfs) env tid st hf hpa

/-- The precondition normal operation establishes for each engine
operation: a fresh id counter for submissions and decompositions, a
Pending target for decomposition, an Assigned target for execution start,
an InProgress target (with InProgress ancestors) for execution finish, a
Failed target for retry handling, and an InProgress parent for the
completion check. -/
def opPre : EngineOp → EngineState → Prop
  | EngineOp.submitOp _ _, st => IdsFresh st
  | EngineOp.decomposeOp _ tid, st => IdsFresh st ∧
      ∀ t, lookupTask st tid = some t → t.status = TaskStatus.pending
  | EngineOp.processQueueOp, _ => True
  | EngineOp.execStartOp tid _, st =>
      ∀ t, lookupTask st tid = some t → t.status = TaskStatus.assigned
  | EngineOp.execFinishOp tid _ _ _, st =>
      ∀ t, lookupTask st tid = some t → t.status = TaskStatus.inProgress ∧
        ∀ pid, t.parentTaskId = some pid → pid ≠ tid ∧
          ∀ p, lookupTask st pid = some p → p.status = TaskStatus.inProgress
  | EngineOp.handleFailureOp tid, st =>
      ∀ t, lookupTask st tid = some t → t.status = TaskStatus.failed
  | EngineOp.checkParentOp pid, st =>
      ∀ p, lookupTask st pid = some p → p.status = TaskStatus.inProgress
  | EngineOp.resolveConflictOp _ _, _ => True
  | EngineOp.requestCollabOp _ _, _ => True

/-- An environment whose decomposition call produces an empty subtask
list. -/
def c4Env : Env := { envFail with decomposeResp := fun _ => some [] }

/-- A single pending task about to be decomposed. -/
def c4Start : EngineState := { emptyState with tasks := [("t0", t0)] }

/-- Decomposition of the pending task (status Pending at entry). -/
def c4Run : EngineState := (decomposeTask c4Env 0 "t0" c4Start).state

/-- Claim C4, counterexample.  _decompose_task writes InProgress directly
onto a Pending task (orchestrator.py line 273) without passing through
Assigned: the logged transition Pending to InProgress is exactly the edge
the claim rules out. -/
theorem claim4_counterexample :
    c4Run.transitions = [("t0", TaskStatus.pending, TaskStatus.inProgress)]
    ∧ claimedEdge TaskStatus.pending TaskStatus.inProgress = false := by
  exact ⟨rfl, rfl⟩

/-- An environment whose decomposition call produces one real subtask
(atomic for the child, since the capability list has one element and the
complexity inference fails over to the heuristic). -/
def c4EnvNE : Env :=
  { envFail with
      decomposeResp := fun _ =>
        some [{ title := some "s1", description := some "sd",
                requiredCapabilities := some ["c"], priority := none }] }

/-- A failed task whose retry budget is exhausted. -/
def c4Spent : EngineState :=
  { emptyState with
      tasks := [("tf", { t0 with status := TaskStatus.failed, retryCount := 3 })] }

/-- A failed task with retries left. -/
def c4Retry : EngineState :=
  { emptyState with
      tasks := [("tg", { t0 with status := TaskStatus.failed })] }

/-- Claim C4, amended: every engine operation, run under the precondition
normal operation establishes for it (opPre: fresh id counter for
submission and decomposition, Pending decomposition target, Assigned
execution-start target, InProgress execution-finish target with
InProgress ancestors, Failed retry target, InProgress parent for the
completion check), writes task statuses only along Pending to Assigned
(queue draining), Assigned to InProgress (execution start), InProgress to
Completed / Failed (execution finish, parent synthesis), Failed to
Pending (retry), plus the edge the original claim omitted: Pending to
InProgress when a task is decomposed — including decompositions that
spawn real subtask submissions, nested to any depth.  The
Failed-to-Pending edge occurs exactly when the retry is granted
(retryCount < maxRetries); a denied retry leaves the state untouched. -/
theorem claim4_amended (env : Env) :
    (∀ (op : EngineOp) (st : EngineState), opPre op st →
      logsOnly st (runOp env op st) amendedEdge)
    ∧ (∀ (tid : String) (st : EngineState) (t : TaskRec),
        lookupTask st tid = some t → t.status = TaskStatus.failed →
        ((¬ t.retryCount < maxRetries → handleTaskFailure tid st = Res.ok () st)
         ∧ (t.retryCount < maxRetries → ∃ d,
             ((handleTaskFailure tid st).state).transitions =
               st.transitions ++ (tid, TaskStatus.failed, TaskStatus.pending) :: d
             ∧ ∀ tr ∈ d, edgePA tr.2.1 tr.2.2 = true))) := by
  constructor
  · intro op st hpre
    cases op with
    | submitOp fuel data =>
      exact (submitTask_stepOK env fuel data st hpre).1
    | decomposeOp fuel tid =>
      exact (decomposeTask_stepOK env fuel tid st hpre.1
        (fun t ht => Or.inl (hpre.2 t ht))).1
    | processQueueOp =>
      exact logsOnly_mono edgePA_le_amended (processTaskQueue_logsPA st)
    | execStartOp tid aid =>
      cases hlook : lookupTask st tid with
      | none => exact logsOnly_of_eq (by simp [runOp, execStart, hlook, Res.state])
      | some t => exact execStart_logs tid aid st t hlook (hpre t hlook)
    | execFinishOp tid aid outcome fault =>
      cases hlook : lookupTask st tid with
      | none => exact logsOnly_of_eq (by simp [runOp, execFinish, hlook, Res.state])
      | some t =>
        exact execFinish_logs env tid aid outcome fault st t hlook
          (hpre t hlook).1 (fun pid hpid => (hpre t hlook).2 pid hpid)
    | handleFailureOp tid =>
      cases hlook : lookupTask st tid with
      | none =>
        exact logsOnly_of_eq (by simp [runOp, handleTaskFailure, hlook, Res.state])
      | some t => exact handleTaskFailure_logsAmended tid st t hlook (hpre t hlook)
    | checkParentOp pid =>
      exact checkParentCompletion_logs env pid st hpre
    | resolveConflictOp tid cands =>
      refine logsOnly_of_eq ?_
      cases hlook : lookupTask st tid with
      | none => simp [runOp, resolveConflict, hlook, Res.state]
      | some t =>
        cases hinf : env.resolveInfer t cands with
        | some r => simp [runOp, resolveConflict, hlook, hinf, Res.state]
        | none =>
          cases cands with
          | nil => simp [runOp, resolveConflict, hlook, hinf, Res.state]
          | cons c cs => simp [runOp, resolveConflict, hlook, hinf, Res.state]
    | requestCollabOp r caps =>
      refine logsOnly_of_eq ?_
      cases hscan : collabScan { st with nextId := st.nextId + 1 } r [] caps with
      | error e => simp [runOp, requestCollaboration, hscan, Res.state]
      | ok parts =>
        cases parts with
        | nil => simp [runOp, requestCollaboration, hscan, Res.state]
        | cons p ps => simp [runOp, requestCollaboration, hscan, Res.state]
  · intro tid st t h1 h2
    exact ⟨(handleTaskFailure_logs tid st t h1 h2).1,
      (handleTaskFailure_logs tid st t h1 h2).2⟩

/-- Claim C4, witness for the amended theorem: a decomposition that spawns
a real subtask, a full submission, the concrete queue drain of claim C5
and a concrete execution finish all log only amended edges; a failed task
with the retry budget spent is left untouched and one with retries left
logs the Failed-to-Pending edge first. -/
theorem claim4_amended_witness :
    logsOnly c4Start (runOp c4EnvNE (EngineOp.decomposeOp 1 "t0") c4Start) amendedEdge
    ∧ logsOnly emptyState
        (runOp envFail (EngineOp.submitOp 1 fullData) emptyState) amendedEdge
    ∧ logsOnly c5Start (runOp envFail EngineOp.processQueueOp c5Start) amendedEdge
    ∧ logsOnly c7State (runOp envFail
        (EngineOp.execFinishOp "t0" "A" c2Out (some "crash")) c7State) amendedEdge
    ∧ handleTaskFailure "tf" c4Spent = Res.ok () c4Spent
    ∧ (∃ d, ((handleTaskFailure "tg" c4Retry).state).transitions =
        c4Retry.transitions ++ ("tg", TaskStatus.failed, TaskStatus.pending) :: d
        ∧ ∀ tr ∈ d, edgePA tr.2.1 tr.2.2 = true) := by
  refine ⟨?_, ?_, ?_, ?_, ?_, ?_⟩
  · exact (claim4_amended c4EnvNE).1 (EngineOp.decomposeOp 1 "t0") c4Start
      ⟨fun k _ => getAssoc_singleton_ne _ _ _
        (Ne.symm (freshIdNum_ne_short k "t0" (by decide))),
       fun t ht => by
        rw [show lookupTask c4Start "t0" = some t0 from rfl] at ht
        rw [← Option.some.inj ht]
        rfl⟩
  · exact (claim4_amended envFail).1 (EngineOp.submitOp 1 fullData) emptyState
      (fun k _ => rfl)
  · exact (claim4_amended envFail).1 EngineOp.processQueueOp c5Start trivial
  · exact (claim4_amended envFail).1
      (EngineOp.execFinishOp "t0" "A" c2Out (some "crash")) c7State
      (fun t ht => by
        rw [show lookupTask c7State "t0" = some c2Task from rfl] at ht
        rw [← Option.some.inj ht]
        exact ⟨rfl, fun pid hpid => by simp [c2Task, t0] at hpid⟩)
  · exact ((claim4_amended envFail).2 "tf" c4Spent
      { t0 with status := TaskStatus.failed, retryCount := 3 } rfl rfl).1
      (by decide)
  · exact ((claim4_amended envFail).2 "tg" c4Retry
      { t0 with status := TaskStatus.failed } rfl rfl).2 (by decide)

end Orchestration
